import Mathlib

/-!
Verification development for the dental-deserts data pipeline
(`scripts/build_data.py`).  The Python source is shallowly embedded:

* Python `str` values become Lean `String` (ASCII model for case mapping,
  whitespace and the `\w`/`\d` character classes, which is the character
  range the pipeline's postcode and area-code data uses);
* Python `dict`s become association lists whose update helpers preserve
  insertion order exactly as CPython dicts do (update-in-place keeps the
  original position, fresh keys append at the end);
* Python `float` values become `ℚ`; the numeric fields the pipeline stores
  in the geocode cache / lookup records are modelled as already parsed
  rationals (the source stores decimal strings and reparses them, a
  round-trip that is the identity on the values it itself wrote), and the
  trigonometric functions used only by the synthetic-boundary fallback are
  passed in as rational-valued oracles;
* fallible external collaborators (the live postcode fetch, float parsing
  of caller-supplied coordinate strings) become `Option`-valued functions
  supplied in the environment.
-/

namespace DentalDeserts

/-! ### Python string primitives (ASCII model) -/

/-- The characters matched by Python's `\s` on ASCII text. -/
def pyIsSpace (c : Char) : Bool :=
  c = ' ' || c = '\t' || c = '\n' || c = '\x0d' || c = '\x0b' || c = '\x0c'

/-- `str.strip()` on a character list: drop leading and trailing whitespace. -/
def stripChars (l : List Char) : List Char :=
  ((l.dropWhile pyIsSpace).reverse.dropWhile pyIsSpace).reverse

/-- `str.strip()`. -/
def pyStrip (s : String) : String := String.mk (stripChars s.toList)

/-- `str.upper()` (ASCII). -/
def pyUpper (s : String) : String := String.mk (s.toList.map Char.toUpper)

/-- `str.lower()` (ASCII). -/
def pyLower (s : String) : String := String.mk (s.toList.map Char.toLower)

/-- `s.startswith(p)`. -/
def pyStartsWith (s p : String) : Bool := p.toList.isPrefixOf s.toList

/-- `s[n:]` (drop the first `n` characters). -/
def pyDrop (s : String) (n : Nat) : String := String.mk (s.toList.drop n)

/-- Fuel-driven worker for `str.replace` (all non-overlapping occurrences,
leftmost first); the fuel is the input length, which bounds the recursion. -/
def replaceAllAux (pat repl : List Char) : Nat → List Char → List Char
  | _, [] => []
  | 0, s => s
  | fuel + 1, c :: rest =>
    if pat.isPrefixOf (c :: rest) then
      repl ++ replaceAllAux pat repl fuel (List.drop (pat.length - 1) rest)
    else c :: replaceAllAux pat repl fuel rest

/-- `s.replace(pat, repl)` for a non-empty pattern. -/
def pyReplace (s pat repl : String) : String :=
  String.mk (replaceAllAux pat.toList repl.toList s.toList.length s.toList)

/-- `x or None` on a Python string: empty is falsy. -/
def strOpt (s : String) : Option String := if s = "" then none else some s

/-- Python `a or b` where `a : str | None`: `None` and `""` fall through. -/
def orOptStr (a b : Option String) : Option String :=
  match a with
  | some s => if s = "" then b else some s
  | none => b

/-- Python `a or b` where `a : int | None`: `None` and `0` fall through. -/
def orOptInt (a b : Option Int) : Option Int :=
  match a with
  | some v => if v = 0 then b else some v
  | none => b

/-! ### Association lists standing in for CPython dicts.
`aget` returns the first binding (there is at most one: `aupd`/`amod`
update in place and append fresh keys, as CPython dict assignment does,
so list order is dict iteration order). -/

/-- `d.get(k)`. -/
def aget {β : Type} : List (String × β) → String → Option β
  | [], _ => none
  | (k', v) :: rest, k => if k' = k then some v else aget rest k

/-- `d[k] = v`: overwrite in place, or append a fresh key. -/
def aupd {β : Type} (k : String) (v : β) : List (String × β) → List (String × β)
  | [] => [(k, v)]
  | (k', w) :: rest => if k' = k then (k', v) :: rest else (k', w) :: aupd k v rest

/-- `defaultdict` read-modify-write: `d[k] = f(d.get(k, dflt))` in place. -/
def amod {β : Type} (k : String) (dflt : β) (f : β → β) :
    List (String × β) → List (String × β)
  | [] => [(k, f dflt)]
  | (k', w) :: rest => if k' = k then (k', f w) :: rest else (k', w) :: amod k dflt f rest

/-! ### Regular expressions of `build_data.py`, as decidable checkers -/

def isUpperAlpha (c : Char) : Bool := 'A' ≤ c && c ≤ 'Z'

/-- Python `\w` on ASCII text. -/
def isWordChar (c : Char) : Bool := c.isAlphanum || c = '_'

/-- Tail `[0-9][A-Z0-9]?[0-9][A-Z]{2}$` of `POSTCODE_RE`. -/
def postcodeTail (l : List Char) : Bool :=
  match l with
  | [d1, d2, a, b] => d1.isDigit && d2.isDigit && isUpperAlpha a && isUpperAlpha b
  | [d1, m, d2, a, b] =>
      d1.isDigit && (isUpperAlpha m || m.isDigit) && d2.isDigit &&
        isUpperAlpha a && isUpperAlpha b
  | _ => false

/-- `POSTCODE_RE = ^[A-Z]{1,2}[0-9][A-Z0-9]?[0-9][A-Z]{2}$` (anchored, so a
match is exactly a decomposition choice for the two optional parts). -/
def postcodeMatches (s : String) : Bool :=
  match s.toList with
  | [] => false
  | c :: rest =>
      isUpperAlpha c &&
        (postcodeTail rest ||
          (match rest with
           | c2 :: rest2 => isUpperAlpha c2 && postcodeTail rest2
           | [] => false))

/-- `LSOA_CODE_RE = ^[EW]010\d{5}$`. -/
def lsoaCodeMatches (s : String) : Bool :=
  match s.toList with
  | c0 :: c1 :: c2 :: c3 :: rest =>
      (c0 = 'E' || c0 = 'W') && c1 = '0' && c2 = '1' && c3 = '0' &&
        rest.length = 5 && rest.all Char.isDigit
  | _ => false

/-! ### Area-key codec (`build_data.py` lines 41-57, 412-451) -/

/-- `normalize_postcode`: strip, uppercase, then delete every whitespace
character (`re.sub(r"\s+", "", ...)`). -/
def normalize_postcode (postcode : String) : String :=
  String.mk (((pyStrip postcode).toList.map Char.toUpper).filter (fun c => !pyIsSpace c))

/-- `canonical_lsoa_area_code` (lines 45-57). -/
def canonical_lsoa_area_code (value : Option String) : Option String :=
  match value with
  | none => none
  | some v =>
    if v = "" then none else
    let text := pyStrip v
    if text = "" then none else
    let code := if pyStartsWith text "LSOA::" then pyStrip (pyDrop text 6) else text
    if lsoaCodeMatches code then some ("LSOA::" ++ code) else none

/-- `lsoa_code_from_area` (lines 431-439). -/
def lsoa_code_from_area (area_code : Option String) : Option String :=
  match area_code with
  | none => none
  | some a =>
    if a = "" then none else
    let v := pyStrip a
    let v := if pyStartsWith v "LSOA::" then pyStrip (pyDrop v 6) else v
    if v ≠ "" then some v else none

/-- `is_england_lsoa_code` (lines 442-443): truthy and starts with `"E"`. -/
def isEnglandLsoaCode (lsoa_code : Option String) : Bool :=
  match lsoa_code with
  | none => false
  | some s => s ≠ "" && pyStartsWith s "E"

/-- `is_england_msoa_code` (lines 446-447). -/
def isEnglandMsoaCode (msoa_code : String) : Bool :=
  msoa_code ≠ "" && pyStartsWith msoa_code "E"

/-- `is_england_msoa_key` (lines 450-451). -/
def isEnglandMsoaKey (msoa_key : String) : Bool :=
  msoa_key ≠ "" && pyStartsWith msoa_key "MSOA::E"

def msoaKeyFromName (msoa_name : String) : String := "MSOA::" ++ msoa_name

def msoaKeyFromCode (msoa_code : String) : String := "MSOA::" ++ msoa_code

/-- `derive_msoa_name_from_lsoa_name` (lines 412-420): match
`^(.*\b\d{3})[A-Z]$` against the stripped name; the `$`-anchored suffix
forces the three digits to sit immediately before the final letter, `\b`
requires a non-word character (or the string start) before them, and `.*`
cannot cross a newline.  Returns the stripped group. -/
def derive_msoa_name_from_lsoa_name (lsoa_name : String) : Option String :=
  let text := pyStrip lsoa_name
  if text = "" then none else
  match text.toList.reverse with
  | u :: d3 :: d2 :: d1 :: rest =>
      if isUpperAlpha u && d1.isDigit && d2.isDigit && d3.isDigit &&
          (match rest with | [] => true | c :: _ => !isWordChar c) &&
          rest.all (fun c => c ≠ '\n') then
        some (pyStrip (String.mk (rest.reverse ++ [d1, d2, d3])))
      else none
  | _ => none

/-! ### Python rounding on exact rationals -/

/-- Python `round(x)`: round half to even. -/
def pyRound (q : ℚ) : ℤ :=
  let f := ⌊q⌋
  let r := q - (f : ℚ)
  if r < 1/2 then f
  else if 1/2 < r then f + 1
  else if f % 2 = 0 then f else f + 1

/-- Python `round(x, 4)`. -/
def round4 (q : ℚ) : ℚ := (pyRound (q * 10000) : ℚ) / 10000

/-! ### `build_practices` (lines 279-378)

The raw practice row carries the columns read by the loop; `lat`, `lon` and
`area_code` are read with `row.get(..., "")` in the source, so a missing
column is the empty string here.  A geocode record (cache entry, bulk
lookup row, or live-fetch result) carries coordinates and a fine-area
string. -/

structure RawRow where
  practice_id : String
  practice_name : String
  address : String
  postcode : String
  lat : String
  lon : String
  area_code : String
deriving DecidableEq, Repr

structure AvailRow where
  accepting_adults : String
  accepting_children : String
deriving DecidableEq, Repr

structure GeoRec where
  lat : ℚ
  lon : ℚ
  area_code : String
deriving DecidableEq, Repr

/-- The `Practice` dataclass (lines 26-38). -/
structure Practice where
  practice_id : String
  practice_name : String
  address : String
  postcode : String
  postcode_norm : String
  lat : Option ℚ
  lon : Option ℚ
  area_code : Option String
  geocode_failed : Bool
  accepting_adults : String
  accepting_children : String
deriving DecidableEq, Repr

/-- Warning tallies (the `Counter` keys the loop uses). -/
structure WarnCounts where
  deduplicated_practices : Nat
  missing_postcode : Nat
  invalid_postcode : Nat
  missing_availability : Nat
  geocode_failed : Nat
deriving DecidableEq, Repr

def WarnCounts.zero : WarnCounts := ⟨0, 0, 0, 0, 0⟩

/-- External collaborators of `build_practices`: the availability table
keyed by raw `practice_id`, the bulk postcode lookup, the live single
fetch, and float parsing of caller-supplied coordinate strings. -/
structure BuildEnv where
  availability : List (String × AvailRow)
  lookup : List (String × GeoRec)
  live : String → Option GeoRec
  parseFloat : String → Option ℚ

structure BuildState where
  seen : List (String × String)
  cache : List (String × GeoRec)
  results : List Practice
  counts : WarnCounts
  warnings : List String

/-- Outcome of the geocode-resolution block (lines 316-359) for one row:
the resolved fields plus the possibly-updated cache; `geocode_failed`
set means every step failed (the caller then records one warning). -/
structure GeoOutcome where
  lat : Option ℚ
  lon : Option ℚ
  area_code : Option String
  geocode_failed : Bool
  cache : List (String × GeoRec)
deriving Repr

/-- `cache.get(pn) or lookup.get(pn) or geocode_postcode_live(pn)`
(line 343); the records are non-empty dicts, hence always truthy. -/
def geoChain (env : BuildEnv) (cache : List (String × GeoRec)) (pn : String) :
    Option GeoRec :=
  match aget cache pn with
  | some r => some r
  | none =>
    match aget env.lookup pn with
    | some r => some r
    | none => env.live pn

/-- Lines 316-356: source coordinates first (both must parse, a
`ValueError` resets everything), then the cache/lookup/live chain; every
success writes the cache entry for `postcode_norm`. -/
def resolveGeocode (env : BuildEnv) (cache : List (String × GeoRec))
    (postcode_norm src_lat src_lon src_area : String) : GeoOutcome :=
  let src_area_canonical := canonical_lsoa_area_code (some src_area)
  let step1 : Option (ℚ × ℚ) :=
    if src_lat ≠ "" ∧ src_lon ≠ "" then
      match env.parseFloat src_lat, env.parseFloat src_lon with
      | some la, some lo => some (la, lo)
      | _, _ => none
    else none
  match step1 with
  | some (la, lo) =>
    let ac := orOptStr src_area_canonical (strOpt src_area)
    { lat := some la
      lon := some lo
      area_code := ac
      geocode_failed := false
      cache := aupd postcode_norm ⟨la, lo, ac.getD ""⟩ cache }
  | none =>
    match geoChain env cache postcode_norm with
    | some g =>
      let geocode_area_canonical := canonical_lsoa_area_code (some (pyStrip g.area_code))
      let ac := orOptStr src_area_canonical
        (orOptStr geocode_area_canonical (strOpt src_area))
      { lat := some g.lat
        lon := some g.lon
        area_code := ac
        geocode_failed := false
        cache := aupd postcode_norm ⟨g.lat, g.lon, ac.getD ""⟩ cache }
    | none =>
      { lat := none
        lon := none
        area_code := none
        geocode_failed := true
        cache := cache }

/-- The dedup key `(row["practice_name"].strip().lower(),
normalize_postcode(row["postcode"]))` (line 292). -/
def rowKey (row : RawRow) : String × String :=
  (pyLower (pyStrip row.practice_name), normalize_postcode row.postcode)

/-- The single `results.append(Practice(...))` site (lines 361-375). -/
def mkPractice (row : RawRow) (practice_id postcode_norm : String)
    (availability : AvailRow) (g : GeoOutcome) : Practice :=
  { practice_id := practice_id
    practice_name := pyStrip row.practice_name
    address := pyStrip row.address
    postcode := pyUpper (pyStrip row.postcode)
    postcode_norm := postcode_norm
    lat := g.lat
    lon := g.lon
    area_code := g.area_code
    geocode_failed := g.geocode_failed
    accepting_adults := pyLower (pyStrip availability.accepting_adults)
    accepting_children := pyLower (pyStrip availability.accepting_children) }

/-- One iteration of the `for row in practices_raw` loop (lines 290-375). -/
def rowStep (env : BuildEnv) (st : BuildState) (row : RawRow) : BuildState :=
  let practice_id := pyStrip row.practice_id
  let key := rowKey row
  if key ∈ st.seen then
    { st with counts :=
        { st.counts with deduplicated_practices := st.counts.deduplicated_practices + 1 } }
  else
    let seen' := key :: st.seen
    let postcode_norm := normalize_postcode row.postcode
    if postcode_norm = "" then
      { st with
        seen := seen'
        counts := { st.counts with missing_postcode := st.counts.missing_postcode + 1 }
        warnings := st.warnings ++ [practice_id ++ ": missing postcode"] }
    else if !postcodeMatches postcode_norm then
      { st with
        seen := seen'
        counts := { st.counts with invalid_postcode := st.counts.invalid_postcode + 1 }
        warnings := st.warnings ++
          [practice_id ++ ": invalid postcode \x27" ++ row.postcode ++ "\x27"] }
    else
      let availRes := aget env.availability practice_id
      let availability := availRes.getD ⟨"unknown", "unknown"⟩
      let counts1 :=
        match availRes with
        | some _ => st.counts
        | none =>
          { st.counts with missing_availability := st.counts.missing_availability + 1 }
      let g := resolveGeocode env st.cache postcode_norm
        (pyStrip row.lat) (pyStrip row.lon) (pyStrip row.area_code)
      let counts2 :=
        if g.geocode_failed then
          { counts1 with geocode_failed := counts1.geocode_failed + 1 }
        else counts1
      let warnings2 :=
        if g.geocode_failed then
          st.warnings ++ [practice_id ++ ": geocode lookup failed for " ++ postcode_norm]
        else st.warnings
      { seen := seen'
        cache := g.cache
        results := st.results ++ [mkPractice row practice_id postcode_norm availability g]
        counts := counts2
        warnings := warnings2 }

/-- `build_practices` given its collaborators and the initially loaded
cache: fold the row loop over the input rows. -/
def buildPractices (env : BuildEnv) (cache0 : List (String × GeoRec))
    (rows : List RawRow) : BuildState :=
  rows.foldl (rowStep env) ⟨[], cache0, [], WarnCounts.zero, []⟩

/-! ### `write_areas_and_metrics` (lines 454-679)

Inputs that the source reads from files arrive here as parameters: the
population rows (their three count columns already through `int(...)`),
the `imd.csv` pairs, the two boundary-row lists (geometry payloads kept
abstract in a type parameter `G`), and the practice-derived LSOA→MSOA
majority map.  The weighted deprivation accumulator is integer-valued in
fact (decile times population), so it is `ℤ` here although the source
keeps it in a float. -/

structure PopRow where
  area_code : String
  area_name : String
  population_total : Int
  population_adults : Int
  population_children : Int
deriving DecidableEq, Repr

structure MsoaRow (G : Type) where
  msoa_code : String
  msoa_name : String
  geometry : G

structure LsoaRow (G : Type) where
  lsoa_code : String
  lsoa_name : String
  geometry : G

structure PopAcc where
  population_total : Int
  population_adults : Int
  population_children : Int
deriving DecidableEq, Repr

def PopAcc.zero : PopAcc := ⟨0, 0, 0⟩

structure ImdAcc where
  weighted_sum : Int
  weight : Int
deriving DecidableEq, Repr

def ImdAcc.zero : ImdAcc := ⟨0, 0⟩

inductive ImdDecile where
  | num (n : Int)
  | unknown
deriving DecidableEq, Repr

structure AreaMetric where
  area_code : String
  area_name : String
  population_total : Int
  population_adults : Int
  population_children : Int
  practice_count : Nat
  accepting_adults_count : Nat
  accepting_children_count : Nat
  practices_per_10k : ℚ
  accepting_adults_per_10k_adults : ℚ
  accepting_children_per_10k_children : ℚ
  imd_decile : ImdDecile
deriving DecidableEq, Repr

/-- `{r["area_code"]: int(r["imd_decile"]) for r in read_csv(...)}`
(line 456): later rows overwrite earlier ones. -/
def buildImdMap (pairs : List (String × Int)) : List (String × Int) :=
  pairs.foldl (fun m p => aupd p.1 p.2 m) []

/-- `msoa_name_to_code` (lines 458-462): dict comprehension keyed by the
uppercased stripped name, skipping rows with an empty name or code. -/
def buildNameToCode {G : Type} (rows : List (MsoaRow G)) : List (String × String) :=
  rows.foldl
    (fun m r =>
      let n := pyStrip r.msoa_name
      let c := pyStrip r.msoa_code
      if n ≠ "" ∧ c ≠ "" then aupd (pyUpper n) c m else m)
    []

structure PopState where
  lsoa_to_msoa : List (String × String)
  msoa_names_by_key : List (String × String)
  msoa_population : List (String × PopAcc)
  msoa_imd_weighted : List (String × ImdAcc)

def PopState.init : PopState := ⟨[], [], [], []⟩

/-- The per-row filters of the population loop (lines 471-487), which
depend only on fixed inputs and the row itself: returns
`(lsoa_code, msoa_name, msoa_key)` for a row that passes every check. -/
def popRowAnalysis (ltm ntc : List (String × String)) (row : PopRow) :
    Option (String × String × String) :=
  let lsoa_area := pyStrip row.area_code
  match lsoa_code_from_area (some lsoa_area) with
  | none => none
  | some lsoa_code =>
    if !isEnglandLsoaCode (some lsoa_code) then none else
    let lsoa_name := pyStrip row.area_name
    match orOptStr (aget ltm lsoa_code) (derive_msoa_name_from_lsoa_name lsoa_name) with
    | none => none
    | some msoa_name =>
      if msoa_name = "" then none else
      let msoa_code := (aget ntc (pyUpper msoa_name)).getD ""
      let msoa_key :=
        if msoa_code ≠ "" then msoaKeyFromCode msoa_code else msoaKeyFromName msoa_name
      if !isEnglandMsoaKey msoa_key then none else
      some (lsoa_code, msoa_name, msoa_key)

/-- The ordered lookup `imd_rows.get(raw) or imd_rows.get(bare) or
imd_rows.get(namespaced)` (lines 496-500); Python `or` also skips a
stored value of `0`. -/
def imdCodeLookup (imd : List (String × Int)) (lsoa_area lsoa_code : String) :
    Option Int :=
  orOptInt (aget imd lsoa_area)
    (orOptInt (aget imd lsoa_code) (aget imd ("LSOA::" ++ lsoa_code)))

/-- One iteration of the population loop (lines 471-503). -/
def popStep (ltm ntc : List (String × String)) (imd : List (String × Int))
    (st : PopState) (row : PopRow) : PopState :=
  match popRowAnalysis ltm ntc row with
  | none => st
  | some (lsoa_code, msoa_name, msoa_key) =>
    { lsoa_to_msoa := aupd lsoa_code msoa_key st.lsoa_to_msoa
      msoa_names_by_key :=
        if msoa_name ≠ "" then aupd msoa_key msoa_name st.msoa_names_by_key
        else st.msoa_names_by_key
      msoa_population :=
        amod msoa_key PopAcc.zero
          (fun a =>
            ⟨a.population_total + row.population_total,
             a.population_adults + row.population_adults,
             a.population_children + row.population_children⟩)
          st.msoa_population
      msoa_imd_weighted :=
        match imdCodeLookup imd (pyStrip row.area_code) lsoa_code with
        | some v =>
          if row.population_total > 0 then
            amod msoa_key ImdAcc.zero
              (fun a =>
                ⟨a.weighted_sum + v * row.population_total,
                 a.weight + row.population_total⟩)
              st.msoa_imd_weighted
          else st.msoa_imd_weighted
        | none => st.msoa_imd_weighted }

def popPhase (ltm ntc : List (String × String)) (imd : List (String × Int))
    (rows : List PopRow) : PopState :=
  rows.foldl (popStep ltm ntc imd) PopState.init

structure CountAcc where
  total : Nat
  adults_yes : Nat
  children_yes : Nat
deriving DecidableEq, Repr

def CountAcc.zero : CountAcc := ⟨0, 0, 0⟩

structure PracState where
  counts : List (String × CountAcc)
  grouped : List (String × List (ℚ × ℚ))

/-- One iteration of the practice-join loop (lines 509-524). -/
def pracStep (ltm : List (String × String)) (st : PracState) (p : Practice) :
    PracState :=
  let lsoa_code? := lsoa_code_from_area p.area_code
  if !isEnglandLsoaCode lsoa_code? then st else
  match lsoa_code? with
  | none => st
  | some lsoa_code =>
    match aget ltm lsoa_code with
    | none => st
    | some msoa_key =>
      if msoa_key = "" then st else
      { counts :=
          amod msoa_key CountAcc.zero
            (fun c =>
              ⟨c.total + 1,
               c.adults_yes + (if p.accepting_adults = "yes" then 1 else 0),
               c.children_yes + (if p.accepting_children = "yes" then 1 else 0)⟩)
            st.counts
        grouped :=
          match p.lat, p.lon with
          | some la, some lo =>
            if !p.geocode_failed then
              amod msoa_key [] (fun l => l ++ [(la, lo)]) st.grouped
            else st.grouped
          | _, _ => st.grouped }

def pracPhase (ltm : List (String × String)) (practices : List Practice) : PracState :=
  practices.foldl (pracStep ltm) ⟨[], []⟩

/-- Lines 526-529: arithmetic mean of the collected coordinates per key
(each collected list is non-empty by construction). -/
def centroids (grouped : List (String × List (ℚ × ℚ))) : List (String × (ℚ × ℚ)) :=
  grouped.map
    (fun kv =>
      (kv.1,
        ((kv.2.map Prod.fst).sum / kv.2.length,
         (kv.2.map Prod.snd).sum / kv.2.length)))

structure MetricInputs where
  names : List (String × String)
  counts : List (String × CountAcc)
  imdw : List (String × ImdAcc)

/-- The metric record built for a population-backed key (lines 532-566);
reading the `counts` and `msoa_imd_weighted` defaultdicts materializes
zero entries in the source, which is unobservable in the output (any key
so materialized is already in `metrics` and the later counts-only loop
skips it), so plain defaulted lookups are used here. -/
def mkMetric (mi : MetricInputs) (msoa_key : String) (pop : PopAcc) : AreaMetric :=
  let area_name := (aget mi.names msoa_key).getD (pyReplace msoa_key "MSOA::" "")
  let c := (aget mi.counts msoa_key).getD CountAcc.zero
  let practices_per_10k :=
    if pop.population_total ≠ 0 then
      round4 ((c.total : ℚ) / (pop.population_total : ℚ) * 10000)
    else 0
  let adults_per_10k :=
    if pop.population_adults ≠ 0 then
      round4 ((c.adults_yes : ℚ) / (pop.population_adults : ℚ) * 10000)
    else 0
  let children_per_10k :=
    if pop.population_children ≠ 0 then
      round4 ((c.children_yes : ℚ) / (pop.population_children : ℚ) * 10000)
    else 0
  let w := (aget mi.imdw msoa_key).getD ImdAcc.zero
  let imd_decile :=
    if w.weight > 0 then
      ImdDecile.num (pyRound ((w.weighted_sum : ℚ) / (w.weight : ℚ)))
    else ImdDecile.unknown
  { area_code := msoa_key
    area_name := area_name
    population_total := pop.population_total
    population_adults := pop.population_adults
    population_children := pop.population_children
    practice_count := c.total
    accepting_adults_count := c.adults_yes
    accepting_children_count := c.children_yes
    practices_per_10k := practices_per_10k
    accepting_adults_per_10k_adults := adults_per_10k
    accepting_children_per_10k_children := children_per_10k
    imd_decile := imd_decile }

/-- One iteration of the counts-only loop (lines 568-586). -/
def addCountOnly (metrics : List (String × AreaMetric)) (kv : String × CountAcc) :
    List (String × AreaMetric) :=
  if (aget metrics kv.1).isSome then metrics
  else if !isEnglandMsoaKey kv.1 then metrics
  else
    metrics ++
      [(kv.1,
        { area_code := kv.1
          area_name := pyReplace kv.1 "MSOA::" ""
          population_total := 0
          population_adults := 0
          population_children := 0
          practice_count := kv.2.total
          accepting_adults_count := kv.2.adults_yes
          accepting_children_count := kv.2.children_yes
          practices_per_10k := 0
          accepting_adults_per_10k_adults := 0
          accepting_children_per_10k_children := 0
          imd_decile := ImdDecile.unknown })]

/-- The full `metrics` dict (lines 531-586). -/
def buildMetrics (ps : PopState) (cs : PracState) : List (String × AreaMetric) :=
  let mi : MetricInputs := ⟨ps.msoa_names_by_key, cs.counts, ps.msoa_imd_weighted⟩
  cs.counts.foldl addCountOnly
    (ps.msoa_population.map (fun kv => (kv.1, mkMetric mi kv.1 kv.2)))

/-! ### Boundary features (lines 588-670) -/

/-- Feature geometry: either a source geometry passed through, or the
synthesized single-ring polygon (a list of `(lon, lat)` pairs). -/
inductive Geom (G : Type) where
  | src (g : G)
  | polygon (ring : List (ℚ × ℚ))

structure Feature (G : Type) where
  id : String
  area_code : String
  area_name : String
  imd_decile : ImdDecile
  geometry : Geom G

/-- `metrics_by_name` (line 590): uppercased stripped display name → key,
later entries overwriting earlier ones. -/
def metricsByName (metrics : List (String × AreaMetric)) : List (String × String) :=
  metrics.foldl (fun m kv => aupd (pyUpper (pyStrip kv.2.area_name)) kv.1 m) []

/-- One iteration of the MSOA-boundary join (lines 591-618). -/
def msoaFeatureStep {G : Type} (metrics : List (String × AreaMetric))
    (byName : List (String × String)) (acc : List (Feature G)) (row : MsoaRow G) :
    List (Feature G) :=
  let msoa_code := pyStrip row.msoa_code
  if msoa_code ≠ "" ∧ !isEnglandMsoaCode msoa_code then acc else
  let msoa_name := pyStrip row.msoa_name
  if msoa_name = "" ∧ msoa_code = "" then acc else
  let key1 : Option String :=
    if msoa_code ≠ "" then
      (if (aget metrics (msoaKeyFromCode msoa_code)).isSome then
        some (msoaKeyFromCode msoa_code)
      else none)
    else none
  let msoa_key? : Option String :=
    match key1 with
    | some k => some k
    | none =>
      if msoa_name ≠ "" then
        orOptStr (aget byName (pyUpper msoa_name)) (some (msoaKeyFromName msoa_name))
      else none
  match msoa_key? with
  | none => acc
  | some mk =>
    match aget metrics mk with
    | none => acc
    | some m =>
      acc ++
        [{ id := if msoa_code ≠ "" then msoa_code else mk
           area_code := mk
           area_name := m.area_name
           imd_decile := m.imd_decile
           geometry := Geom.src row.geometry }]

/-- The MSOA-boundary join (lines 591-618). -/
def msoaFeatures {G : Type} (metrics : List (String × AreaMetric))
    (rows : List (MsoaRow G)) : List (Feature G) :=
  rows.foldl (msoaFeatureStep metrics (metricsByName metrics)) []

/-- One iteration of the LSOA-boundary fallback join (lines 620-641). -/
def lsoaFeatureStep {G : Type} (metrics : List (String × AreaMetric))
    (acc : List (Feature G)) (row : LsoaRow G) : List (Feature G) :=
  let lsoa_name := pyStrip row.lsoa_name
  match derive_msoa_name_from_lsoa_name lsoa_name with
  | none => acc
  | some msoa_name =>
    if msoa_name = "" then acc else
    let mk := msoaKeyFromName msoa_name
    match aget metrics mk with
    | none => acc
    | some m =>
      acc ++
        [{ id := if row.lsoa_code ≠ "" then row.lsoa_code else mk
           area_code := mk
           area_name := m.area_name
           imd_decile := m.imd_decile
           geometry := Geom.src row.geometry }]

/-- The LSOA-boundary fallback join (lines 620-641). -/
def lsoaFeatures {G : Type} (metrics : List (String × AreaMetric))
    (rows : List (LsoaRow G)) : List (Feature G) :=
  rows.foldl (lsoaFeatureStep metrics) []

/-- The float literal `3.141592653589793` used by the synthetic loop. -/
def piQ : ℚ := 3141592653589793 / 1000000000000000

/-- The synthesized ring for one area (lines 648-658): 18 vertices on a
4 km-radius ellipse in degree space, then the first vertex repeated.
`sinq`/`cosq`/`radq` are the rational-valued stand-ins for `math.sin`,
`math.cos` and `math.radians`. -/
def syntheticRing (sinq cosq radq : ℚ → ℚ) (center : ℚ × ℚ) : List (ℚ × ℚ) :=
  let dlat := (4 : ℚ) / 111
  let dlon := dlat / max (cosq (radq center.1)) (1/4)
  let base :=
    (List.range 18).map
      (fun (step : ℕ) =>
        let angle := 2 * piQ * ((step : ℚ) / 18)
        (center.2 + dlon * cosq angle, center.1 + dlat * sinq angle))
  base ++ base.take 1

/-- The synthetic-fallback loop (lines 644-670): one polygon per metric,
centered on the practice centroid when known, else at the deterministic
per-index offset `(51.0 + i*0.02, -1.0 - i*0.02)`. -/
def syntheticFeatures {G : Type} (sinq cosq radq : ℚ → ℚ)
    (cents : List (String × (ℚ × ℚ))) (metrics : List (String × AreaMetric)) :
    List (Feature G) :=
  metrics.enum.map
    (fun ikv =>
      let center := (aget cents ikv.2.1).getD
        (51 + (ikv.1 : ℚ) * (2/100), -1 - (ikv.1 : ℚ) * (2/100))
      { id := ikv.2.1
        area_code := ikv.2.1
        area_name := ikv.2.2.area_name
        imd_decile := ikv.2.2.imd_decile
        geometry := Geom.polygon (syntheticRing sinq cosq radq center) })

/-- `write_areas_and_metrics` as a pure function from its file-derived
inputs and the practice list to the metrics mapping and the boundary
`FeatureCollection` contents. -/
def writeAreasAndMetrics (G : Type) (sinq cosq radq : ℚ → ℚ)
    (population_rows : List PopRow) (imd_pairs : List (String × Int))
    (msoa_boundary_rows : List (MsoaRow G)) (lsoa_boundary_rows : List (LsoaRow G))
    (ltm : List (String × String)) (practices : List Practice) :
    List (String × AreaMetric) × List (Feature G) :=
  let imd := buildImdMap imd_pairs
  let ntc := buildNameToCode msoa_boundary_rows
  let ps := popPhase ltm ntc imd population_rows
  let cs := pracPhase ps.lsoa_to_msoa practices
  let metrics := buildMetrics ps cs
  let feats0 :=
    if !msoa_boundary_rows.isEmpty then msoaFeatures metrics msoa_boundary_rows
    else lsoaFeatures metrics lsoa_boundary_rows
  let feats :=
    if feats0.isEmpty then
      syntheticFeatures sinq cosq radq (centroids cs.grouped) metrics
    else feats0
  (metrics, feats)

/-! ### The QA report's missing-geocode breakdown (lines 711-714) -/

/-- The keys tallied by `missing_by_area`: for every practice with a
failed geocode or no area key, `p.area_code or "unassigned"`. -/
def qaMissingAreaKeys (practices : List Practice) : List String :=
  practices.filterMap
    (fun p =>
      if p.geocode_failed || p.area_code = none then
        some (match p.area_code with
          | some s => if s = "" then "unassigned" else s
          | none => "unassigned")
      else none)

/-! ### General lemmas about the dict model -/

theorem aget_aupd_self {β : Type} (l : List (String × β)) (k : String) (v : β) :
    aget (aupd k v l) k = some v := by
  induction l with
  | nil => simp [aupd, aget]
  | cons h t ih =>
    obtain ⟨k', w⟩ := h
    by_cases hk : k' = k
    · simp [aupd, hk, aget]
    · simp [aupd, hk, aget, ih]

theorem aget_aupd_ne {β : Type} (l : List (String × β)) {k k' : String} (v : β)
    (h : k' ≠ k) : aget (aupd k v l) k' = aget l k' := by
  induction l with
  | nil => simp [aupd, aget, Ne.symm h]
  | cons hd t ih =>
    obtain ⟨k'', w⟩ := hd
    by_cases hk : k'' = k
    · subst hk
      simp [aupd, aget, Ne.symm h]
    · simp [aupd, hk, aget, ih]

theorem aget_amod_self {β : Type} (l : List (String × β)) (k : String) (d : β)
    (f : β → β) : aget (amod k d f l) k = some (f ((aget l k).getD d)) := by
  induction l with
  | nil => simp [amod, aget]
  | cons h t ih =>
    obtain ⟨k', w⟩ := h
    by_cases hk : k' = k
    · simp [amod, hk, aget]
    · simp [amod, hk, aget, ih]

theorem aget_amod_ne {β : Type} (l : List (String × β)) {k k' : String} (d : β)
    (f : β → β) (h : k' ≠ k) : aget (amod k d f l) k' = aget l k' := by
  induction l with
  | nil => simp [amod, aget, Ne.symm h]
  | cons hd t ih =>
    obtain ⟨k'', w⟩ := hd
    by_cases hk : k'' = k
    · subst hk
      simp [amod, aget, Ne.symm h]
    · simp [amod, hk, aget, ih]

theorem aget_mem {β : Type} {l : List (String × β)} {k : String} {v : β}
    (h : aget l k = some v) : (k, v) ∈ l := by
  induction l with
  | nil => simp [aget] at h
  | cons hd t ih =>
    obtain ⟨k', w⟩ := hd
    by_cases hk : k' = k
    · subst hk
      simp [aget] at h
      simp [h]
    · simp [aget, hk] at h
      exact List.mem_cons_of_mem _ (ih h)

theorem aget_append_left {β : Type} {l : List (String × β)} (l' : List (String × β))
    {k : String} {v : β} (h : aget l k = some v) : aget (l ++ l') k = some v := by
  induction l with
  | nil => simp [aget] at h
  | cons hd t ih =>
    obtain ⟨k', w⟩ := hd
    by_cases hk : k' = k
    · simp [aget, hk] at h ⊢
      exact h
    · simp [aget, hk] at h ⊢
      exact ih h

theorem aget_append_right {β : Type} {l : List (String × β)} (l' : List (String × β))
    {k : String} (h : aget l k = none) : aget (l ++ l') k = aget l' k := by
  induction l with
  | nil => simp
  | cons hd t ih =>
    obtain ⟨k', w⟩ := hd
    by_cases hk : k' = k
    · simp [aget, hk] at h
    · simp [aget, hk] at h ⊢
      exact ih h

theorem aget_map_comm {β γ : Type} (f : String → β → γ) (l : List (String × β))
    (k : String) :
    aget (l.map (fun kv => (kv.1, f kv.1 kv.2))) k = (aget l k).map (f k) := by
  induction l with
  | nil => simp [aget]
  | cons hd t ih =>
    obtain ⟨k', w⟩ := hd
    by_cases hk : k' = k
    · subst hk
      simp [aget]
    · simp [aget, hk, ih]

theorem keyP_aupd {β : Type} (P : String → Prop) {l : List (String × β)}
    {k : String} {v : β} (hl : ∀ y ∈ l, P y.1) (hk : P k) :
    ∀ x ∈ aupd k v l, P x.1 := by
  induction l with
  | nil =>
    intro x hx
    simp [aupd] at hx
    simp [hx, hk]
  | cons hd t ih =>
    intro x hx
    obtain ⟨k', w⟩ := hd
    by_cases hkk : k' = k
    · simp [aupd, hkk] at hx
      rcases hx with hx | hx
      · simp [hx, hkk, hk]
      · exact hl x (List.mem_cons_of_mem _ hx)
    · simp only [aupd, if_neg hkk, List.mem_cons] at hx
      rcases hx with hx | hx
      · exact hx ▸ hl (k', w) (List.mem_cons_self _ _)
      · exact ih (fun y hy => hl y (List.mem_cons_of_mem _ hy)) x hx

theorem keyP_amod {β : Type} (P : String → Prop) {l : List (String × β)}
    {k : String} {d : β} {f : β → β} (hl : ∀ y ∈ l, P y.1) (hk : P k) :
    ∀ x ∈ amod k d f l, P x.1 := by
  induction l with
  | nil =>
    intro x hx
    simp [amod] at hx
    simp [hx, hk]
  | cons hd t ih =>
    intro x hx
    obtain ⟨k', w⟩ := hd
    by_cases hkk : k' = k
    · simp [amod, hkk] at hx
      rcases hx with hx | hx
      · simp [hx, hkk, hk]
      · exact hl x (List.mem_cons_of_mem _ hx)
    · simp only [amod, if_neg hkk, List.mem_cons] at hx
      rcases hx with hx | hx
      · exact hx ▸ hl (k', w) (List.mem_cons_self _ _)
      · exact ih (fun y hy => hl y (List.mem_cons_of_mem _ hy)) x hx

/-! ### Scope-filter invariants (claim C1) -/

theorem bool_true_of_not_notb {b : Bool} (h : ¬((!b) = true)) : b = true := by
  cases b
  · exact absurd rfl h
  · rfl

theorem popRowAnalysis_england {ltm ntc : List (String × String)} {row : PopRow}
    {lc mn mk : String}
    (h : popRowAnalysis ltm ntc row = some (lc, mn, mk)) :
    isEnglandMsoaKey mk = true := by
  unfold popRowAnalysis at h
  simp only [] at h
  cases hc : lsoa_code_from_area (some (pyStrip row.area_code)) with
  | none =>
    simp only [hc] at h
    exact Option.noConfusion h
  | some lsoa_code =>
    simp only [hc] at h
    by_cases h1 : (!isEnglandLsoaCode (some lsoa_code)) = true
    · simp only [if_pos h1] at h
      exact Option.noConfusion h
    · simp only [if_neg h1] at h
      cases hm : orOptStr (aget ltm lsoa_code)
          (derive_msoa_name_from_lsoa_name (pyStrip row.area_name)) with
      | none =>
        simp only [hm] at h
        exact Option.noConfusion h
      | some msoa_name =>
        simp only [hm] at h
        by_cases h2 : msoa_name = ""
        · simp only [if_pos h2] at h
          exact Option.noConfusion h
        · simp only [if_neg h2] at h
          by_cases h3 : (!isEnglandMsoaKey
              (if ((aget ntc (pyUpper msoa_name)).getD "") ≠ "" then
                msoaKeyFromCode ((aget ntc (pyUpper msoa_name)).getD "")
              else msoaKeyFromName msoa_name)) = true
          · simp only [if_pos h3] at h
            exact Option.noConfusion h
          · simp only [if_neg h3] at h
            cases h
            exact bool_true_of_not_notb h3

theorem popFold_population_england (ltm ntc : List (String × String))
    (imd : List (String × Int)) :
    ∀ (rows : List PopRow) (st : PopState),
      (∀ kv ∈ st.msoa_population, isEnglandMsoaKey kv.1 = true) →
      ∀ kv ∈ (rows.foldl (popStep ltm ntc imd) st).msoa_population,
        isEnglandMsoaKey kv.1 = true := by
  intro rows
  induction rows with
  | nil => intro st h; simpa using h
  | cons r rs ih =>
    intro st h
    simp only [List.foldl_cons]
    apply ih
    intro kv hkv
    unfold popStep at hkv
    cases han : popRowAnalysis ltm ntc r with
    | none =>
      rw [han] at hkv
      exact h kv hkv
    | some t =>
      obtain ⟨lc, mn, mk⟩ := t
      rw [han] at hkv
      simp only at hkv
      exact keyP_amod (fun s => isEnglandMsoaKey s = true) h
        (popRowAnalysis_england han) kv hkv

theorem aget_addCountOnly_none {acc : List (String × AreaMetric)}
    {c : String × CountAcc} {k : String}
    (h : aget (addCountOnly acc c) k = none) : aget acc k = none := by
  unfold addCountOnly at h
  split at h
  · exact h
  · split at h
    · exact h
    · cases hacc : aget acc k with
      | none => rfl
      | some v => rw [aget_append_left _ hacc] at h; exact Option.noConfusion h

theorem mem_foldl_addCountOnly :
    ∀ (l : List (String × CountAcc)) (acc : List (String × AreaMetric))
      (kv : String × AreaMetric), kv ∈ l.foldl addCountOnly acc →
      kv ∈ acc ∨
        (isEnglandMsoaKey kv.1 = true ∧ kv.2.imd_decile = ImdDecile.unknown ∧
          kv.2.population_total = 0 ∧ kv.2.population_adults = 0 ∧
          kv.2.population_children = 0 ∧ kv.2.practices_per_10k = 0 ∧
          kv.2.accepting_adults_per_10k_adults = 0 ∧
          kv.2.accepting_children_per_10k_children = 0 ∧
          aget acc kv.1 = none) := by
  intro l
  induction l with
  | nil =>
    intro acc kv h
    exact Or.inl h
  | cons c cs ih =>
    intro acc kv h
    simp only [List.foldl_cons] at h
    rcases ih _ kv h with h1 | h1
    · unfold addCountOnly at h1
      split at h1
      · exact Or.inl h1
      · split at h1
        · exact Or.inl h1
        · rw [List.mem_append] at h1
          rcases h1 with h1 | h1
          · exact Or.inl h1
          · simp only [List.mem_singleton] at h1
            subst h1
            refine Or.inr ⟨?_, rfl, rfl, rfl, rfl, rfl, rfl, rfl, ?_⟩
            · simp_all
            · simp_all [Option.isSome_iff_exists]
              cases hacc : aget acc c.1 with
              | none => rfl
              | some v => simp_all
    · obtain ⟨he, hd, hrest⟩ := h1
      refine Or.inr ⟨he, hd, hrest.1, hrest.2.1, hrest.2.2.1, hrest.2.2.2.1,
        hrest.2.2.2.2.1, hrest.2.2.2.2.2.1, aget_addCountOnly_none hrest.2.2.2.2.2.2⟩

theorem mem_buildMetrics_england {ps : PopState} {cs : PracState}
    (hpop : ∀ kv ∈ ps.msoa_population, isEnglandMsoaKey kv.1 = true) :
    ∀ kv ∈ buildMetrics ps cs, isEnglandMsoaKey kv.1 = true := by
  intro kv h
  unfold buildMetrics at h
  rcases mem_foldl_addCountOnly _ _ _ h with h1 | h1
  · rw [List.mem_map] at h1
    obtain ⟨kv', hkv', hEq⟩ := h1
    have := hpop kv' hkv'
    rw [← hEq] at *
    exact this
  · exact h1.1

theorem msoaFeatureStep_inv {G : Type} {metrics : List (String × AreaMetric)}
    {byName : List (String × String)} {acc : List (Feature G)} {row : MsoaRow G}
    (hacc : ∀ f ∈ acc, (aget metrics f.area_code).isSome = true) :
    ∀ f ∈ msoaFeatureStep metrics byName acc row,
      (aget metrics f.area_code).isSome = true := by
  intro f hf
  unfold msoaFeatureStep at hf
  simp only [] at hf
  split at hf
  · exact hacc f hf
  · split at hf
    · exact hacc f hf
    · split at hf
      · exact hacc f hf
      · split at hf
        · exact hacc f hf
        · rename_i m heq
          rw [List.mem_append] at hf
          rcases hf with hf | hf
          · exact hacc f hf
          · simp only [List.mem_singleton] at hf
            subst hf
            simp [heq]

theorem mem_msoaFeatures {G : Type} {metrics : List (String × AreaMetric)}
    {rows : List (MsoaRow G)} :
    ∀ f ∈ msoaFeatures metrics rows, (aget metrics f.area_code).isSome = true := by
  unfold msoaFeatures
  suffices hgen : ∀ (rs : List (MsoaRow G)) (acc : List (Feature G)),
      (∀ f ∈ acc, (aget metrics f.area_code).isSome = true) →
      ∀ f ∈ rs.foldl (msoaFeatureStep metrics (metricsByName metrics)) acc,
        (aget metrics f.area_code).isSome = true by
    exact hgen rows [] (by intro f hf; simp at hf)
  intro rs
  induction rs with
  | nil => intro acc hacc; simpa using hacc
  | cons r rest ih =>
    intro acc hacc
    simp only [List.foldl_cons]
    exact ih _ (msoaFeatureStep_inv hacc)

theorem lsoaFeatureStep_inv {G : Type} {metrics : List (String × AreaMetric)}
    {acc : List (Feature G)} {row : LsoaRow G}
    (hacc : ∀ f ∈ acc, (aget metrics f.area_code).isSome = true) :
    ∀ f ∈ lsoaFeatureStep metrics acc row,
      (aget metrics f.area_code).isSome = true := by
  intro f hf
  unfold lsoaFeatureStep at hf
  simp only [] at hf
  split at hf
  · exact hacc f hf
  · split at hf
    · exact hacc f hf
    · split at hf
      · exact hacc f hf
      · rename_i m heq
        rw [List.mem_append] at hf
        rcases hf with hf | hf
        · exact hacc f hf
        · simp only [List.mem_singleton] at hf
          subst hf
          simp [heq]

theorem mem_lsoaFeatures {G : Type} {metrics : List (String × AreaMetric)}
    {rows : List (LsoaRow G)} :
    ∀ f ∈ lsoaFeatures metrics rows, (aget metrics f.area_code).isSome = true := by
  unfold lsoaFeatures
  suffices hgen : ∀ (rs : List (LsoaRow G)) (acc : List (Feature G)),
      (∀ f ∈ acc, (aget metrics f.area_code).isSome = true) →
      ∀ f ∈ rs.foldl (lsoaFeatureStep metrics) acc,
        (aget metrics f.area_code).isSome = true by
    exact hgen rows [] (by intro f hf; simp at hf)
  intro rs
  induction rs with
  | nil => intro acc hacc; simpa using hacc
  | cons r rest ih =>
    intro acc hacc
    simp only [List.foldl_cons]
    exact ih _ (lsoaFeatureStep_inv hacc)

theorem mem_of_mem_enum {α : Type} {x : ℕ × α} {l : List α} (h : x ∈ l.enum) :
    x.2 ∈ l := by
  rw [List.mem_enum_iff_getElem?] at h
  obtain ⟨hlt, hEq⟩ := List.getElem?_eq_some.1 h
  exact hEq ▸ List.getElem_mem hlt

theorem mem_syntheticFeatures {G : Type} {sinq cosq radq : ℚ → ℚ}
    {cents : List (String × (ℚ × ℚ))} {metrics : List (String × AreaMetric)}
    {f : Feature G} (hf : f ∈ syntheticFeatures sinq cosq radq cents metrics) :
    ∃ kv ∈ metrics, f.area_code = kv.1 := by
  unfold syntheticFeatures at hf
  rw [List.mem_map] at hf
  obtain ⟨ikv, hik, hEq⟩ := hf
  exact ⟨ikv.2, mem_of_mem_enum hik, by rw [← hEq]⟩

theorem writeAreasAndMetrics_fst (G : Type) (sinq cosq radq : ℚ → ℚ)
    (pop : List PopRow) (imdp : List (String × Int)) (mrows : List (MsoaRow G))
    (lrows : List (LsoaRow G)) (ltm : List (String × String))
    (practices : List Practice) :
    (writeAreasAndMetrics G sinq cosq radq pop imdp mrows lrows ltm practices).1 =
      buildMetrics (popPhase ltm (buildNameToCode mrows) (buildImdMap imdp) pop)
        (pracPhase
          (popPhase ltm (buildNameToCode mrows) (buildImdMap imdp) pop).lsoa_to_msoa
          practices) := rfl

theorem writeAreasAndMetrics_snd (G : Type) (sinq cosq radq : ℚ → ℚ)
    (pop : List PopRow) (imdp : List (String × Int)) (mrows : List (MsoaRow G))
    (lrows : List (LsoaRow G)) (ltm : List (String × String))
    (practices : List Practice) :
    (writeAreasAndMetrics G sinq cosq radq pop imdp mrows lrows ltm practices).2 =
      (let metrics :=
        (writeAreasAndMetrics G sinq cosq radq pop imdp mrows lrows ltm practices).1
      let feats0 :=
        if !mrows.isEmpty then msoaFeatures metrics mrows
        else lsoaFeatures metrics lrows
      if feats0.isEmpty then
        syntheticFeatures sinq cosq radq
          (centroids
            (pracPhase
              (popPhase ltm (buildNameToCode mrows) (buildImdMap imdp)
                pop).lsoa_to_msoa practices).grouped)
          metrics
      else feats0) := rfl

/-- C1: a fine-area code whose leading character is not the in-scope
prefix `E` never contributes to any output of `write_areas_and_metrics`:
the population loop leaves the aggregation state untouched on such a row,
the practice-join loop leaves the counts untouched on such a practice,
and every metric record and boundary feature produced by the function is
keyed by an in-scope (`MSOA::E…`) coarse key. -/
theorem claim_country_scope_filter :
    (∀ (ltm ntc : List (String × String)) (imd : List (String × Int))
        (st : PopState) (row : PopRow) (c : String),
        lsoa_code_from_area (some (pyStrip row.area_code)) = some c →
        pyStartsWith c "E" = false →
        popStep ltm ntc imd st row = st) ∧
    (∀ (ltm : List (String × String)) (st : PracState) (p : Practice) (c : String),
        lsoa_code_from_area p.area_code = some c →
        pyStartsWith c "E" = false →
        pracStep ltm st p = st) ∧
    (∀ (G : Type) (sinq cosq radq : ℚ → ℚ) (pop : List PopRow)
        (imdp : List (String × Int)) (mrows : List (MsoaRow G))
        (lrows : List (LsoaRow G)) (ltm : List (String × String))
        (practices : List Practice),
        (∀ kv ∈ (writeAreasAndMetrics G sinq cosq radq pop imdp mrows lrows ltm
            practices).1, isEnglandMsoaKey kv.1 = true) ∧
        (∀ f ∈ (writeAreasAndMetrics G sinq cosq radq pop imdp mrows lrows ltm
            practices).2, isEnglandMsoaKey f.area_code = true)) := by
  refine ⟨?_, ?_, ?_⟩
  · intro ltm ntc imd st row c hc hs
    unfold popStep
    have han : popRowAnalysis ltm ntc row = none := by
      unfold popRowAnalysis
      simp only [hc]
      have : isEnglandLsoaCode (some c) = false := by
        simp [isEnglandLsoaCode, hs]
      simp [this]
    rw [han]
  · intro ltm st p c hc hs
    unfold pracStep
    rw [hc]
    have : isEnglandLsoaCode (some c) = false := by
      simp [isEnglandLsoaCode, hs]
    simp [this]
  · intro G sinq cosq radq pop imdp mrows lrows ltm practices
    have hpopkeys := popFold_population_england ltm (buildNameToCode mrows)
      (buildImdMap imdp) pop PopState.init (by intro kv h; simp [PopState.init] at h)
    have hmet : ∀ kv ∈ (writeAreasAndMetrics G sinq cosq radq pop imdp mrows lrows
        ltm practices).1, isEnglandMsoaKey kv.1 = true := by
      rw [writeAreasAndMetrics_fst]
      exact mem_buildMetrics_england hpopkeys
    refine ⟨hmet, ?_⟩
    intro f hf
    rw [writeAreasAndMetrics_snd] at hf
    simp only [] at hf
    split at hf
    · split at hf
      · obtain ⟨kv, hkv, hEq⟩ := mem_syntheticFeatures hf
        rw [hEq]
        exact hmet kv hkv
      · have := mem_msoaFeatures _ hf
        rw [Option.isSome_iff_exists] at this
        obtain ⟨m, hm⟩ := this
        exact hmet (f.area_code, m) (aget_mem hm)
    · split at hf
      · obtain ⟨kv, hkv, hEq⟩ := mem_syntheticFeatures hf
        rw [hEq]
        exact hmet kv hkv
      · have := mem_lsoaFeatures _ hf
        rw [Option.isSome_iff_exists] at this
        obtain ⟨m, hm⟩ := this
        exact hmet (f.area_code, m) (aget_mem hm)

/-- Witness for C1 at concrete out-of-scope (Welsh) inputs. -/
theorem claim_country_scope_filter_witness :
    popStep [] [] [] PopState.init ⟨"W01000001", "X", 1, 1, 1⟩ = PopState.init ∧
    pracStep [] ⟨[], []⟩
      ⟨"p", "n", "a", "PC", "PC", none, none, some "W01000001", false, "yes", "yes"⟩ =
      (⟨[], []⟩ : PracState) :=
  ⟨claim_country_scope_filter.1 [] [] [] PopState.init ⟨"W01000001", "X", 1, 1, 1⟩
      "W01000001" (by decide) (by decide),
    claim_country_scope_filter.2.1 [] ⟨[], []⟩
      ⟨"p", "n", "a", "PC", "PC", none, none, some "W01000001", false, "yes", "yes"⟩
      "W01000001" (by decide) (by decide)⟩

/-- C7: in every metric record produced by `write_areas_and_metrics`, each
rate-per-10,000 field equals `count / population * 10000` rounded to 4
decimal places when its denominator population is nonzero, and equals `0.0`
when that denominator is zero. -/
theorem claim_rate_per_10k :
    ∀ (G : Type) (sinq cosq radq : ℚ → ℚ) (pop : List PopRow)
      (imdp : List (String × Int)) (mrows : List (MsoaRow G))
      (lrows : List (LsoaRow G)) (ltm : List (String × String))
      (practices : List Practice) (kv : String × AreaMetric),
      kv ∈ (writeAreasAndMetrics G sinq cosq radq pop imdp mrows lrows ltm
        practices).1 →
      (kv.2.practices_per_10k =
        if kv.2.population_total ≠ 0 then
          round4 ((kv.2.practice_count : ℚ) / (kv.2.population_total : ℚ) * 10000)
        else 0) ∧
      (kv.2.accepting_adults_per_10k_adults =
        if kv.2.population_adults ≠ 0 then
          round4 ((kv.2.accepting_adults_count : ℚ) /
            (kv.2.population_adults : ℚ) * 10000)
        else 0) ∧
      (kv.2.accepting_children_per_10k_children =
        if kv.2.population_children ≠ 0 then
          round4 ((kv.2.accepting_children_count : ℚ) /
            (kv.2.population_children : ℚ) * 10000)
        else 0) := by
  intro G sinq cosq radq pop imdp mrows lrows ltm practices kv hkv
  rw [writeAreasAndMetrics_fst] at hkv
  rcases mem_foldl_addCountOnly _ _ _ hkv with h | h
  · rw [List.mem_map] at h
    obtain ⟨kv', -, hEq⟩ := h
    rw [← hEq]
    exact ⟨rfl, rfl, rfl⟩
  · obtain ⟨-, -, hpt, hpa, hpc, hr1, hr2, hr3, -⟩ := h
    rw [hpt, hpa, hpc, hr1, hr2, hr3]
    norm_num

/-- Witness for C7: a zero-population area reports literal-zero rates. -/
theorem claim_rate_per_10k_witness :
    let m : AreaMetric :=
      { area_code := "MSOA::Ealing 001", area_name := "Ealing 001"
        population_total := 0, population_adults := 0, population_children := 0
        practice_count := 0, accepting_adults_count := 0
        accepting_children_count := 0, practices_per_10k := 0
        accepting_adults_per_10k_adults := 0
        accepting_children_per_10k_children := 0
        imd_decile := ImdDecile.unknown }
    m.practices_per_10k =
      if m.population_total ≠ 0 then
        round4 ((m.practice_count : ℚ) / (m.population_total : ℚ) * 10000)
      else 0 :=
  (claim_rate_per_10k Unit (fun _ => 0) (fun _ => 0) (fun _ => 0)
    [⟨"E01000001", "Ealing 001A", 0, 0, 0⟩] [] [] [] [] []
    ("MSOA::Ealing 001",
      { area_code := "MSOA::Ealing 001", area_name := "Ealing 001"
        population_total := 0, population_adults := 0, population_children := 0
        practice_count := 0, accepting_adults_count := 0
        accepting_children_count := 0, practices_per_10k := 0
        accepting_adults_per_10k_adults := 0
        accepting_children_per_10k_children := 0
        imd_decile := ImdDecile.unknown })
    (by decide)).1

theorem foldl_addCountOnly_preserve {l : List (String × CountAcc)}
    {acc : List (String × AreaMetric)} {k : String} {v : AreaMetric}
    (h : aget acc k = some v) : aget (l.foldl addCountOnly acc) k = some v := by
  induction l generalizing acc with
  | nil => exact h
  | cons c cs ih =>
    simp only [List.foldl_cons]
    apply ih
    unfold addCountOnly
    split
    · exact h
    · split
      · exact h
      · exact aget_append_left _ h

theorem foldl_addCountOnly_found :
    ∀ (l : List (String × CountAcc)) (acc : List (String × AreaMetric))
      (k : String) (c : CountAcc),
      (l.map Prod.fst).Nodup → (k, c) ∈ l → aget acc k = none →
      isEnglandMsoaKey k = true →
      aget (l.foldl addCountOnly acc) k =
        some { area_code := k
               area_name := pyReplace k "MSOA::" ""
               population_total := 0
               population_adults := 0
               population_children := 0
               practice_count := c.total
               accepting_adults_count := c.adults_yes
               accepting_children_count := c.children_yes
               practices_per_10k := 0
               accepting_adults_per_10k_adults := 0
               accepting_children_per_10k_children := 0
               imd_decile := ImdDecile.unknown } := by
  intro l
  induction l with
  | nil =>
    intro acc k c _ hmem
    simp at hmem
  | cons hd rest ih =>
    intro acc k c hnd hmem hnone heng
    obtain ⟨k', c'⟩ := hd
    simp only [List.map_cons, List.nodup_cons] at hnd
    rw [List.mem_cons] at hmem
    rcases hmem with hmem | hmem
    · obtain ⟨hk, hc⟩ := Prod.mk.injEq .. ▸ hmem
      subst hk
      subst hc
      simp only [List.foldl_cons]
      apply foldl_addCountOnly_preserve
      unfold addCountOnly
      simp only [hnone, Option.isSome_none, Bool.false_eq_true, if_false, heng,
        Bool.not_true]
      rw [aget_append_right _ hnone]
      simp [aget]
    · have hkne : k' ≠ k := by
        intro hEq
        subst hEq
        exact hnd.1 (by
          rw [List.mem_map]
          exact ⟨(k', c), hmem, rfl⟩)
      simp only [List.foldl_cons]
      apply ih _ k c hnd.2 hmem _ heng
      unfold addCountOnly
      split
      · exact hnone
      · split
        · exact hnone
        · rw [aget_append_right _ hnone]
          simp [aget, hkne]

/-- C8: an in-scope coarse area that receives practice joins (a key of the
practice-count table) but has no population row (no key in the rolled-up
population table) still appears in the metrics mapping built by lines
531-586, as a record with zero population fields, literal-zero rates, its
practice and availability counts, and the `unknown` decile sentinel. -/
theorem claim_counts_only_metric :
    ∀ (ps : PopState) (cs : PracState) (k : String) (c : CountAcc),
      (cs.counts.map Prod.fst).Nodup →
      aget cs.counts k = some c →
      aget ps.msoa_population k = none →
      isEnglandMsoaKey k = true →
      aget (buildMetrics ps cs) k =
        some { area_code := k
               area_name := pyReplace k "MSOA::" ""
               population_total := 0
               population_adults := 0
               population_children := 0
               practice_count := c.total
               accepting_adults_count := c.adults_yes
               accepting_children_count := c.children_yes
               practices_per_10k := 0
               accepting_adults_per_10k_adults := 0
               accepting_children_per_10k_children := 0
               imd_decile := ImdDecile.unknown } := by
  intro ps cs k c hnd hc hpop heng
  unfold buildMetrics
  apply foldl_addCountOnly_found _ _ _ _ hnd (aget_mem hc) _ heng
  rw [aget_map_comm (fun key p => mkMetric ⟨ps.msoa_names_by_key, cs.counts,
    ps.msoa_imd_weighted⟩ key p) ps.msoa_population k, hpop]
  rfl

/-- Witness for C8 at a concrete one-key counts table and empty
population state. -/
theorem claim_counts_only_metric_witness :
    aget
      (buildMetrics PopState.init
        ⟨[("MSOA::E02000001", ⟨2, 1, 1⟩)], []⟩) "MSOA::E02000001" =
      some { area_code := "MSOA::E02000001"
             area_name := pyReplace "MSOA::E02000001" "MSOA::" ""
             population_total := 0
             population_adults := 0
             population_children := 0
             practice_count := 2
             accepting_adults_count := 1
             accepting_children_count := 1
             practices_per_10k := 0
             accepting_adults_per_10k_adults := 0
             accepting_children_per_10k_children := 0
             imd_decile := ImdDecile.unknown } :=
  claim_counts_only_metric PopState.init ⟨[("MSOA::E02000001", ⟨2, 1, 1⟩)], []⟩
    "MSOA::E02000001" ⟨2, 1, 1⟩ (by decide) (by decide) (by decide) (by decide)

theorem head_eq_getLast_append_take {α : Type} (base : List α) (h : base ≠ []) :
    (base ++ base.take 1).head? = (base ++ base.take 1).getLast? := by
  obtain ⟨b, t, rfl⟩ := List.exists_cons_of_ne_nil h
  have h1 : (b :: t).take 1 = [b] := by simp
  rw [h1, List.getLast?_concat]
  rfl

/-- C9: with no boundary source at all, `write_areas_and_metrics`
synthesizes exactly one polygon feature per metric, whose ring has 18
vertices plus a closing vertex equal to the first (19 entries, first =
last), is centered on the practice centroid when known and otherwise on
the deterministic per-index offset `(51 + i*0.02, -1 - i*0.02)`, with
latitude radius `4/111` degrees and longitude radius the latitude radius
divided by `cos(radians(center_lat))` clamped below at `0.25`; vertex
`st` sits at angle `2π·st/18`. -/
theorem claim_synthetic_boundaries :
    ∀ (G : Type) (sinq cosq radq : ℚ → ℚ) (pop : List PopRow)
      (imdp : List (String × Int)) (ltm : List (String × String))
      (practices : List Practice),
      (writeAreasAndMetrics G sinq cosq radq pop imdp [] [] ltm
        practices).2.length =
        (writeAreasAndMetrics G sinq cosq radq pop imdp [] [] ltm
          practices).1.length ∧
      ∀ (i : ℕ)
        (hm : i < (writeAreasAndMetrics G sinq cosq radq pop imdp [] [] ltm
          practices).1.length)
        (hi : i < (writeAreasAndMetrics G sinq cosq radq pop imdp [] [] ltm
          practices).2.length),
        ∃ ring : List (ℚ × ℚ),
          (let kv := (writeAreasAndMetrics G sinq cosq radq pop imdp [] [] ltm
            practices).1.get ⟨i, hm⟩
          let center := (aget
            (centroids (pracPhase (popPhase ltm
              (buildNameToCode ([] : List (MsoaRow G))) (buildImdMap imdp)
              pop).lsoa_to_msoa practices).grouped) kv.1).getD
            (51 + (i : ℚ) * (2/100), -1 - (i : ℚ) * (2/100))
          let dlat : ℚ := 4/111
          let dlon : ℚ := dlat / max (cosq (radq center.1)) (1/4)
          (writeAreasAndMetrics G sinq cosq radq pop imdp [] [] ltm
            practices).2.get ⟨i, hi⟩ =
            { id := kv.1
              area_code := kv.1
              area_name := kv.2.area_name
              imd_decile := kv.2.imd_decile
              geometry := Geom.polygon ring } ∧
          ring.length = 19 ∧
          ring.head? = ring.getLast? ∧
          ∀ (st : ℕ), st < 18 →
            ring[st]? =
              some (center.2 + dlon * cosq (2 * piQ * ((st : ℚ) / 18)),
                center.1 + dlat * sinq (2 * piQ * ((st : ℚ) / 18)))) := by
  intro G sinq cosq radq pop imdp ltm practices
  have h2 : (writeAreasAndMetrics G sinq cosq radq pop imdp [] [] ltm
      practices).2 =
      syntheticFeatures sinq cosq radq
        (centroids (pracPhase (popPhase ltm
          (buildNameToCode ([] : List (MsoaRow G))) (buildImdMap imdp)
          pop).lsoa_to_msoa practices).grouped)
        (writeAreasAndMetrics G sinq cosq radq pop imdp [] [] ltm
          practices).1 := rfl
  constructor
  · rw [h2]
    unfold syntheticFeatures
    simp
  · intro i hm hi
    refine ⟨syntheticRing sinq cosq radq
      ((aget (centroids (pracPhase (popPhase ltm
          (buildNameToCode ([] : List (MsoaRow G))) (buildImdMap imdp)
          pop).lsoa_to_msoa practices).grouped)
        ((writeAreasAndMetrics G sinq cosq radq pop imdp [] [] ltm
          practices).1.get ⟨i, hm⟩).1).getD
        (51 + (i : ℚ) * (2/100), -1 - (i : ℚ) * (2/100))), ?_, ?_, ?_, ?_⟩
    · have hi' : i < (syntheticFeatures sinq cosq radq
          (centroids (pracPhase (popPhase ltm
            (buildNameToCode ([] : List (MsoaRow G))) (buildImdMap imdp)
            pop).lsoa_to_msoa practices).grouped)
          (writeAreasAndMetrics G sinq cosq radq pop imdp [] [] ltm
            practices).1 : List (Feature G)).length := by
        rw [← h2]; exact hi
      have : (writeAreasAndMetrics G sinq cosq radq pop imdp [] [] ltm
          practices).2.get ⟨i, hi⟩ =
          (syntheticFeatures sinq cosq radq
            (centroids (pracPhase (popPhase ltm
              (buildNameToCode ([] : List (MsoaRow G))) (buildImdMap imdp)
              pop).lsoa_to_msoa practices).grouped)
            (writeAreasAndMetrics G sinq cosq radq pop imdp [] [] ltm
              practices).1).get ⟨i, hi'⟩ := by
        congr 1
      rw [this]
      unfold syntheticFeatures
      simp only [List.get_eq_getElem, List.getElem_map, List.getElem_enum]
    · rfl
    · apply head_eq_getLast_append_take
      intro hEq
      have := congrArg List.length hEq
      simp at this
    · intro st hst
      simp only [syntheticRing]
      simp [List.getElem?_append, List.getElem?_range, hst]

/-- Witness for C9: one metric, no boundary sources, trivial trig
oracles — one feature whose ring closes after 19 entries. -/
theorem claim_synthetic_boundaries_witness :
    ((writeAreasAndMetrics Unit (fun _ => 0) (fun _ => 1) (fun q => q)
        [⟨"E01000001", "Ealing 001A", 0, 0, 0⟩] [] [] [] [] []).2.length =
      (writeAreasAndMetrics Unit (fun _ => 0) (fun _ => 1) (fun q => q)
        [⟨"E01000001", "Ealing 001A", 0, 0, 0⟩] [] [] [] [] []).1.length) ∧
    ∃ ring : List (ℚ × ℚ), ring.length = 19 ∧ ring.head? = ring.getLast? := by
  have h := claim_synthetic_boundaries Unit (fun _ => 0) (fun _ => 1) (fun q => q)
    [⟨"E01000001", "Ealing 001A", 0, 0, 0⟩] [] [] []
  refine ⟨h.1, ?_⟩
  obtain ⟨ring, -, hlen, hhl, -⟩ := h.2 0 (by decide) (by decide)
  exact ⟨ring, hlen, hhl⟩

/-! ### The population-weighted deprivation decile (claim C2) -/

/-- The claim's reading of the deprivation lookup: raw spelling, then bare
code, then namespaced code — first match wins. -/
def imdLookupFirst (imd : List (String × Int)) (lsoa_area lsoa_code : String) :
    Option Int :=
  match aget imd lsoa_area with
  | some v => some v
  | none =>
    match aget imd lsoa_code with
    | some v => some v
    | none => aget imd ("LSOA::" ++ lsoa_code)

/-- One row's contribution to coarse key `k`'s deprivation accumulator,
under lookup function `look`. -/
def imdAccStep (look : String → String → Option Int)
    (ltm ntc : List (String × String)) (k : String) (acc : Int × Int)
    (row : PopRow) : Int × Int :=
  match popRowAnalysis ltm ntc row with
  | some (lsoa_code, _, key) =>
    if key = k then
      match look (pyStrip row.area_code) lsoa_code with
      | some v =>
        if row.population_total > 0 then
          (acc.1 + v * row.population_total, acc.2 + row.population_total)
        else acc
      | none => acc
    else acc
  | none => acc

/-- `(weighted_sum, weight)` for coarse key `k` over the population rows. -/
def imdAccOver (look : String → String → Option Int)
    (ltm ntc : List (String × String)) (rows : List PopRow) (k : String) :
    Int × Int :=
  rows.foldl (imdAccStep look ltm ntc k) (0, 0)

theorem mem_aupd {β : Type} (k : String) (v : β) :
    ∀ (l : List (String × β)) (x : String × β),
      x ∈ aupd k v l → x ∈ l ∨ x = (k, v) := by
  intro l
  induction l with
  | nil =>
    intro x hx
    rw [show aupd k v ([] : List (String × β)) = [(k, v)] from rfl,
      List.mem_singleton] at hx
    exact Or.inr hx
  | cons hd t ih =>
    intro x hx
    obtain ⟨k', w⟩ := hd
    by_cases hk : k' = k
    · rw [show aupd k v ((k', w) :: t) = (k', v) :: t by rw [aupd, if_pos hk],
        List.mem_cons] at hx
      rcases hx with hx | hx
      · right
        rw [hx, hk]
      · exact Or.inl (List.mem_cons_of_mem _ hx)
    · rw [show aupd k v ((k', w) :: t) = (k', w) :: aupd k v t by
        rw [aupd, if_neg hk], List.mem_cons] at hx
      rcases hx with hx | hx
      · exact Or.inl (hx ▸ List.mem_cons_self _ _)
      · rcases ih x hx with h | h
        · exact Or.inl (List.mem_cons_of_mem _ h)
        · exact Or.inr h

theorem mem_buildImdMap {ps : List (String × Int)} {x : String × Int}
    (hx : x ∈ buildImdMap ps) : x ∈ ps := by
  unfold buildImdMap at hx
  suffices hgen : ∀ (l : List (String × Int)) (acc : List (String × Int)),
      x ∈ l.foldl (fun m p => aupd p.1 p.2 m) acc → x ∈ acc ∨ x ∈ l by
    rcases hgen ps [] hx with h | h
    · simp at h
    · exact h
  intro l
  induction l with
  | nil =>
    intro acc h
    exact Or.inl h
  | cons p rest ih =>
    intro acc h
    simp only [List.foldl_cons] at h
    rcases ih _ h with h1 | h1
    · rcases mem_aupd _ _ _ _ h1 with h2 | h2
      · exact Or.inl h2
      · exact Or.inr (h2 ▸ List.mem_cons_self _ _)
    · exact Or.inr (List.mem_cons_of_mem _ h1)

/-- With no zero decile stored (the documented domain is 1-10), the
source's truthiness-based `or` chain coincides with first-match-wins. -/
theorem imdCodeLookup_eq_first {imd : List (String × Int)}
    (h : ∀ kv ∈ imd, kv.2 ≠ (0 : Int)) (a c : String) :
    imdCodeLookup imd a c = imdLookupFirst imd a c := by
  unfold imdCodeLookup imdLookupFirst
  cases h1 : aget imd a with
  | some v =>
    have hv := h _ (aget_mem h1)
    simp only [orOptInt, if_neg hv]
  | none =>
    simp only [orOptInt]
    cases h2 : aget imd c with
    | some v =>
      have hv := h _ (aget_mem h2)
      simp only [orOptInt, if_neg hv]
    | none => simp [orOptInt]

theorem imdAccOver_shift (look : String → String → Option Int)
    (ltm ntc : List (String × String)) (k : String) :
    ∀ (rows : List PopRow) (a : Int × Int),
      rows.foldl (imdAccStep look ltm ntc k) a =
        (a.1 + (imdAccOver look ltm ntc rows k).1,
         a.2 + (imdAccOver look ltm ntc rows k).2) := by
  intro rows
  induction rows with
  | nil => intro a; simp [imdAccOver]
  | cons r rest ih =>
    intro a
    have hfold : imdAccOver look ltm ntc (r :: rest) k =
        rest.foldl (imdAccStep look ltm ntc k) (imdAccStep look ltm ntc k (0, 0) r) :=
      rfl
    rw [hfold, ih (imdAccStep look ltm ntc k (0, 0) r)]
    simp only [List.foldl_cons]
    rw [ih (imdAccStep look ltm ntc k a r)]
    unfold imdAccStep
    cases popRowAnalysis ltm ntc r with
    | none => simp
    | some t =>
      obtain ⟨lc, mn, key⟩ := t
      by_cases hk : key = k
      · simp only [hk, if_pos rfl]
        cases look (pyStrip r.area_code) lc with
        | none => simp
        | some v =>
          by_cases hp : r.population_total > 0
          · simp only [hp, if_true]
            rw [Prod.ext_iff]
            constructor <;> ring
          · simp [hp]
      · simp [hk]

theorem popFold_imdw (ltm ntc : List (String × String)) (imd : List (String × Int)) :
    ∀ (rows : List PopRow) (st : PopState) (k : String),
      (aget (rows.foldl (popStep ltm ntc imd) st).msoa_imd_weighted k).getD
          ImdAcc.zero =
        ⟨((aget st.msoa_imd_weighted k).getD ImdAcc.zero).weighted_sum +
            (imdAccOver (imdCodeLookup imd) ltm ntc rows k).1,
          ((aget st.msoa_imd_weighted k).getD ImdAcc.zero).weight +
            (imdAccOver (imdCodeLookup imd) ltm ntc rows k).2⟩ := by
  intro rows
  induction rows with
  | nil =>
    intro st k
    simp [imdAccOver]
  | cons r rest ih =>
    intro st k
    simp only [List.foldl_cons]
    rw [ih (popStep ltm ntc imd st r) k]
    have hacc : imdAccOver (imdCodeLookup imd) ltm ntc (r :: rest) k =
        ((imdAccStep (imdCodeLookup imd) ltm ntc k (0, 0) r).1 +
            (imdAccOver (imdCodeLookup imd) ltm ntc rest k).1,
          (imdAccStep (imdCodeLookup imd) ltm ntc k (0, 0) r).2 +
            (imdAccOver (imdCodeLookup imd) ltm ntc rest k).2) := by
      show rest.foldl (imdAccStep (imdCodeLookup imd) ltm ntc k)
        (imdAccStep (imdCodeLookup imd) ltm ntc k (0, 0) r) = _
      rw [imdAccOver_shift]
    rw [hacc]
    have hstep : (aget (popStep ltm ntc imd st r).msoa_imd_weighted k).getD
        ImdAcc.zero =
        ⟨((aget st.msoa_imd_weighted k).getD ImdAcc.zero).weighted_sum +
            (imdAccStep (imdCodeLookup imd) ltm ntc k (0, 0) r).1,
          ((aget st.msoa_imd_weighted k).getD ImdAcc.zero).weight +
            (imdAccStep (imdCodeLookup imd) ltm ntc k (0, 0) r).2⟩ := by
      unfold popStep imdAccStep
      cases han : popRowAnalysis ltm ntc r with
      | none => simp
      | some t =>
        obtain ⟨lc, mn, mk⟩ := t
        simp only []
        cases hlook : imdCodeLookup imd (pyStrip r.area_code) lc with
        | none =>
          by_cases hk : mk = k <;> simp [hk]
        | some v =>
          simp only []
          by_cases hp : r.population_total > 0
          · rw [if_pos hp]
            by_cases hk : mk = k
            · subst hk
              rw [aget_amod_self]
              simp [hp]
            · rw [aget_amod_ne _ _ _ (fun hh => hk hh.symm)]
              simp [hk, hp]
          · rw [if_neg hp]
            by_cases hk : mk = k <;> simp [hk, hp]
    rw [hstep]
    simp only [ImdAcc.mk.injEq]
    omega

theorem popFold_population_isSome (ltm ntc : List (String × String))
    (imd : List (String × Int)) :
    ∀ (rows : List PopRow) (st : PopState) (k : String),
      (aget st.msoa_population k).isSome = true →
      (aget (rows.foldl (popStep ltm ntc imd) st).msoa_population k).isSome =
        true := by
  intro rows
  induction rows with
  | nil => intro st k h; simpa using h
  | cons r rest ih =>
    intro st k h
    simp only [List.foldl_cons]
    apply ih
    unfold popStep
    cases han : popRowAnalysis ltm ntc r with
    | none => exact h
    | some t =>
      obtain ⟨lc, mn, mk⟩ := t
      simp only []
      by_cases hk : mk = k
      · subst hk
        rw [aget_amod_self]
        rfl
      · rw [aget_amod_ne _ _ _ (fun hh => hk hh.symm)]
        exact h

theorem popFold_population_none (ltm ntc : List (String × String))
    (imd : List (String × Int)) :
    ∀ (rows : List PopRow) (st : PopState) (k : String),
      aget (rows.foldl (popStep ltm ntc imd) st).msoa_population k = none →
      ∀ r ∈ rows, ∀ lc mn, popRowAnalysis ltm ntc r ≠ some (lc, mn, k) := by
  intro rows
  induction rows with
  | nil =>
    intro st k _ r hr
    simp at hr
  | cons r rest ih =>
    intro st k h r' hr' lc mn hEq
    simp only [List.foldl_cons] at h
    rcases List.mem_cons.1 hr' with h1 | h1
    · subst h1
      have hsome : (aget (popStep ltm ntc imd st r').msoa_population k).isSome =
          true := by
        unfold popStep
        rw [hEq]
        simp only []
        rw [aget_amod_self]
        rfl
      have := popFold_population_isSome ltm ntc imd rest _ k hsome
      rw [h] at this
      simp at this
    · exact ih (popStep ltm ntc imd st r) k h r' h1 lc mn hEq

theorem imdAccOver_zero (look : String → String → Option Int)
    (ltm ntc : List (String × String)) :
    ∀ (rows : List PopRow) (k : String),
      (∀ r ∈ rows, ∀ lc mn, popRowAnalysis ltm ntc r ≠ some (lc, mn, k)) →
      imdAccOver look ltm ntc rows k = (0, 0) := by
  intro rows
  induction rows with
  | nil => intro k _; rfl
  | cons r rest ih =>
    intro k h
    have hstep : imdAccStep look ltm ntc k (0, 0) r = (0, 0) := by
      unfold imdAccStep
      cases han : popRowAnalysis ltm ntc r with
      | none => rfl
      | some t =>
        obtain ⟨lc, mn, key⟩ := t
        have hne : key ≠ k := fun hkey =>
          h r (List.mem_cons_self _ _) lc mn (hkey ▸ han)
        simp [hne]
    show rest.foldl (imdAccStep look ltm ntc k)
      (imdAccStep look ltm ntc k (0, 0) r) = (0, 0)
    rw [hstep]
    exact ih k (fun r' hr' => h r' (List.mem_cons_of_mem _ hr'))

theorem popPhase_imdw (ltm ntc : List (String × String)) (imd : List (String × Int))
    (pop : List PopRow) (k : String) :
    (aget (popPhase ltm ntc imd pop).msoa_imd_weighted k).getD ImdAcc.zero =
      ⟨(imdAccOver (imdCodeLookup imd) ltm ntc pop k).1,
       (imdAccOver (imdCodeLookup imd) ltm ntc pop k).2⟩ := by
  unfold popPhase
  rw [popFold_imdw]
  simp [PopState.init, aget, ImdAcc.zero]

theorem mkMetric_decile (mi : MetricInputs) (k : String) (pop : PopAcc) :
    (mkMetric mi k pop).imd_decile =
      (if ((aget mi.imdw k).getD ImdAcc.zero).weight > 0 then
        ImdDecile.num (pyRound
          ((((aget mi.imdw k).getD ImdAcc.zero).weighted_sum : ℚ) /
            (((aget mi.imdw k).getD ImdAcc.zero).weight : ℚ)))
      else ImdDecile.unknown) := rfl

/-- C2: every metric's deprivation decile is the rounded
population-weighted mean of the deciles of its contributing fine areas —
a population row contributes exactly when a deprivation value is found
for its fine area (raw, bare, then namespaced spelling, first match wins,
under the documented nonzero 1-10 decile domain) and its population is
positive — and the decile is the `unknown` sentinel when the weight is
zero; in particular fine areas {A: 100 @ decile 2, B: 300 @ decile 6}
rolled into one coarse area yield decile 5.  (`pyRound` is Python's
`round`, round-half-to-even.) -/
theorem claim_weighted_decile :
    (∀ (G : Type) (sinq cosq radq : ℚ → ℚ) (pop : List PopRow)
        (imdp : List (String × Int)) (mrows : List (MsoaRow G))
        (lrows : List (LsoaRow G)) (ltm : List (String × String))
        (practices : List Practice),
        (∀ kv ∈ imdp, kv.2 ≠ (0 : Int)) →
        ∀ kv ∈ (writeAreasAndMetrics G sinq cosq radq pop imdp mrows lrows ltm
          practices).1,
          kv.2.imd_decile =
            (let acc := imdAccOver (imdLookupFirst (buildImdMap imdp)) ltm
              (buildNameToCode mrows) pop kv.1
            if 0 < acc.2 then
              ImdDecile.num (pyRound ((acc.1 : ℚ) / (acc.2 : ℚ)))
            else ImdDecile.unknown)) ∧
    (∃ m : AreaMetric,
      aget (writeAreasAndMetrics Unit (fun _ => 0) (fun _ => 1) (fun q => q)
        [⟨"E01000001", "Ealing 001A", 100, 80, 20⟩,
         ⟨"E01000002", "Ealing 001B", 300, 200, 100⟩]
        [("E01000001", 2), ("E01000002", 6)] [] [] [] []).1
        "MSOA::Ealing 001" = some m ∧
      m.imd_decile = ImdDecile.num 5) := by
  have hpart1 : ∀ (G : Type) (sinq cosq radq : ℚ → ℚ) (pop : List PopRow)
      (imdp : List (String × Int)) (mrows : List (MsoaRow G))
      (lrows : List (LsoaRow G)) (ltm : List (String × String))
      (practices : List Practice),
      (∀ kv ∈ imdp, kv.2 ≠ (0 : Int)) →
      ∀ kv ∈ (writeAreasAndMetrics G sinq cosq radq pop imdp mrows lrows ltm
        practices).1,
        kv.2.imd_decile =
          (let acc := imdAccOver (imdLookupFirst (buildImdMap imdp)) ltm
            (buildNameToCode mrows) pop kv.1
          if 0 < acc.2 then
            ImdDecile.num (pyRound ((acc.1 : ℚ) / (acc.2 : ℚ)))
          else ImdDecile.unknown) := by
    intro G sinq cosq radq pop imdp mrows lrows ltm practices hv kv hkv
    have hv' : ∀ kv ∈ buildImdMap imdp, kv.2 ≠ (0 : Int) :=
      fun kv h => hv kv (mem_buildImdMap h)
    have hfun : imdCodeLookup (buildImdMap imdp) =
        imdLookupFirst (buildImdMap imdp) := by
      funext a c
      exact imdCodeLookup_eq_first hv' a c
    rw [writeAreasAndMetrics_fst] at hkv
    rcases mem_foldl_addCountOnly _ _ _ hkv with h1 | h1
    · rw [List.mem_map] at h1
      obtain ⟨kv', hkv', hEq⟩ := h1
      rw [← hEq]
      simp only []
      rw [mkMetric_decile]
      simp only []
      rw [popPhase_imdw]
      simp only []
      rw [hfun]
    · obtain ⟨-, hdec, -, -, -, -, -, -, hnone⟩ := h1
      rw [hdec]
      simp only []
      have hpopnone : aget (popPhase ltm (buildNameToCode mrows)
          (buildImdMap imdp) pop).msoa_population kv.1 = none := by
        rw [aget_map_comm (fun key p => mkMetric
          ⟨(popPhase ltm (buildNameToCode mrows) (buildImdMap imdp)
              pop).msoa_names_by_key,
            (pracPhase (popPhase ltm (buildNameToCode mrows) (buildImdMap imdp)
              pop).lsoa_to_msoa practices).counts,
            (popPhase ltm (buildNameToCode mrows) (buildImdMap imdp)
              pop).msoa_imd_weighted⟩ key p)] at hnone
        cases hres : aget (popPhase ltm (buildNameToCode mrows)
            (buildImdMap imdp) pop).msoa_population kv.1 with
        | none => rfl
        | some p =>
          rw [hres] at hnone
          exact Option.noConfusion hnone
      have hnorow := popFold_population_none ltm (buildNameToCode mrows)
        (buildImdMap imdp) pop PopState.init kv.1 hpopnone
      have hzero := imdAccOver_zero (imdLookupFirst (buildImdMap imdp)) ltm
        (buildNameToCode mrows) pop kv.1 hnorow
      rw [hzero]
      norm_num
  refine ⟨hpart1, ?_⟩
  obtain ⟨m, hm⟩ : ∃ m, aget (writeAreasAndMetrics Unit (fun _ => 0)
      (fun _ => 1) (fun q => q)
      [⟨"E01000001", "Ealing 001A", 100, 80, 20⟩,
       ⟨"E01000002", "Ealing 001B", 300, 200, 100⟩]
      [("E01000001", 2), ("E01000002", 6)] [] [] [] []).1
      "MSOA::Ealing 001" = some m := ⟨_, rfl⟩
  refine ⟨m, hm, ?_⟩
  have hdec := hpart1 Unit (fun _ => 0) (fun _ => 1) (fun q => q)
    [⟨"E01000001", "Ealing 001A", 100, 80, 20⟩,
     ⟨"E01000002", "Ealing 001B", 300, 200, 100⟩]
    [("E01000001", 2), ("E01000002", 6)] [] [] [] []
    (by decide) ("MSOA::Ealing 001", m) (aget_mem hm)
  rw [hdec]
  simp only []
  have hacc : imdAccOver (imdLookupFirst (buildImdMap
      [("E01000001", (2 : Int)), ("E01000002", 6)]))
      [] (buildNameToCode ([] : List (MsoaRow Unit)))
      [⟨"E01000001", "Ealing 001A", 100, 80, 20⟩,
       ⟨"E01000002", "Ealing 001B", 300, 200, 100⟩]
      "MSOA::Ealing 001" = (2000, 400) := by decide
  rw [hacc]
  norm_num [pyRound]

/-- Witness for C2: a single fine area at decile 4 with population 50. -/
theorem claim_weighted_decile_witness :
    ∃ m : AreaMetric,
      aget (writeAreasAndMetrics Unit (fun _ => 0) (fun _ => 1) (fun q => q)
        [⟨"E01000003", "Ealing 002A", 50, 30, 20⟩]
        [("E01000003", 4)] [] [] [] []).1 "MSOA::Ealing 002" = some m ∧
      m.imd_decile =
        (let acc := imdAccOver (imdLookupFirst (buildImdMap
          [("E01000003", (4 : Int))]))
          [] (buildNameToCode ([] : List (MsoaRow Unit)))
          [⟨"E01000003", "Ealing 002A", 50, 30, 20⟩] "MSOA::Ealing 002"
        if 0 < acc.2 then ImdDecile.num (pyRound ((acc.1 : ℚ) / (acc.2 : ℚ)))
        else ImdDecile.unknown) := by
  obtain ⟨m, hm⟩ : ∃ m, aget (writeAreasAndMetrics Unit (fun _ => 0)
      (fun _ => 1) (fun q => q)
      [⟨"E01000003", "Ealing 002A", 50, 30, 20⟩]
      [("E01000003", 4)] [] [] [] []).1 "MSOA::Ealing 002" = some m := ⟨_, rfl⟩
  exact ⟨m, hm, claim_weighted_decile.1 Unit (fun _ => 0) (fun _ => 1)
    (fun q => q) [⟨"E01000003", "Ealing 002A", 50, 30, 20⟩]
    [("E01000003", 4)] [] [] [] [] (by decide) ("MSOA::Ealing 002", m)
    (aget_mem hm)⟩

/-! ### Geocode resolution order (claims C5, C6) -/

/-- Step 1 of the geocode resolution yields nothing: a source coordinate
is missing or fails to parse. -/
def step1Miss (env : BuildEnv) (slat slon : String) : Prop :=
  slat = "" ∨ slon = "" ∨ env.parseFloat slat = none ∨ env.parseFloat slon = none

theorem resolveGeocode_step1_none {env : BuildEnv}
    {cache : List (String × GeoRec)} {pn slat slon sarea : String}
    (h : step1Miss env slat slon) :
    resolveGeocode env cache pn slat slon sarea =
      (match geoChain env cache pn with
      | some g =>
        let ac := orOptStr (canonical_lsoa_area_code (some sarea))
          (orOptStr (canonical_lsoa_area_code (some (pyStrip g.area_code)))
            (strOpt sarea))
        { lat := some g.lat
          lon := some g.lon
          area_code := ac
          geocode_failed := false
          cache := aupd pn ⟨g.lat, g.lon, ac.getD ""⟩ cache }
      | none =>
        { lat := none
          lon := none
          area_code := none
          geocode_failed := true
          cache := cache }) := by
  unfold resolveGeocode
  have hnone : (if slat ≠ "" ∧ slon ≠ "" then
      match env.parseFloat slat, env.parseFloat slon with
      | some la, some lo => some (la, lo)
      | _, _ => none
    else none) = (none : Option (ℚ × ℚ)) := by
    rcases h with h | h | h | h
    · rw [if_neg]
      intro hc
      exact hc.1 h
    · rw [if_neg]
      intro hc
      exact hc.2 h
    · by_cases hc : slat ≠ "" ∧ slon ≠ ""
      · rw [if_pos hc, h]
      · rw [if_neg hc]
    · by_cases hc : slat ≠ "" ∧ slon ≠ ""
      · rw [if_pos hc, h]
        cases env.parseFloat slat <;> rfl
      · rw [if_neg hc]
  rw [hnone]

theorem resolveGeocode_step1_some {env : BuildEnv}
    {cache : List (String × GeoRec)} {pn slat slon sarea : String} {la lo : ℚ}
    (h1 : slat ≠ "") (h2 : slon ≠ "") (hla : env.parseFloat slat = some la)
    (hlo : env.parseFloat slon = some lo) :
    resolveGeocode env cache pn slat slon sarea =
      { lat := some la
        lon := some lo
        area_code := orOptStr (canonical_lsoa_area_code (some sarea))
          (strOpt sarea)
        geocode_failed := false
        cache := aupd pn ⟨la, lo,
          (orOptStr (canonical_lsoa_area_code (some sarea))
            (strOpt sarea)).getD ""⟩ cache } := by
  unfold resolveGeocode
  rw [if_pos ⟨h1, h2⟩, hla, hlo]

/-- C5: geocode resolution tries, in order and each step only if the
previous yields nothing: (1) in-row source coordinates when both parse as
floats, (2) the cache, (3) the bulk lookup, (4) a single live fetch; on
success at any step the normalized postcode's cache entry is created or
overwritten with the resolved coordinates and area code, and failure of
all four steps produces exactly one geocode-failed warning (one counter
bump and one warning line) for the row. -/
theorem claim_geocode_resolution :
    (∀ (env : BuildEnv) (cache : List (String × GeoRec))
        (pn slat slon sarea : String),
      (∀ la lo, slat ≠ "" → slon ≠ "" → env.parseFloat slat = some la →
        env.parseFloat slon = some lo →
        resolveGeocode env cache pn slat slon sarea =
          { lat := some la
            lon := some lo
            area_code := orOptStr (canonical_lsoa_area_code (some sarea))
              (strOpt sarea)
            geocode_failed := false
            cache := aupd pn ⟨la, lo,
              (orOptStr (canonical_lsoa_area_code (some sarea))
                (strOpt sarea)).getD ""⟩ cache }) ∧
      (step1Miss env slat slon → ∀ r, aget cache pn = some r →
        (resolveGeocode env cache pn slat slon sarea).lat = some r.lat ∧
        (resolveGeocode env cache pn slat slon sarea).lon = some r.lon ∧
        (resolveGeocode env cache pn slat slon sarea).geocode_failed = false) ∧
      (step1Miss env slat slon → aget cache pn = none →
        ∀ r, aget env.lookup pn = some r →
        (resolveGeocode env cache pn slat slon sarea).lat = some r.lat ∧
        (resolveGeocode env cache pn slat slon sarea).lon = some r.lon ∧
        (resolveGeocode env cache pn slat slon sarea).geocode_failed = false) ∧
      (step1Miss env slat slon → aget cache pn = none →
        aget env.lookup pn = none → ∀ r, env.live pn = some r →
        (resolveGeocode env cache pn slat slon sarea).lat = some r.lat ∧
        (resolveGeocode env cache pn slat slon sarea).lon = some r.lon ∧
        (resolveGeocode env cache pn slat slon sarea).geocode_failed = false) ∧
      (step1Miss env slat slon → aget cache pn = none →
        aget env.lookup pn = none → env.live pn = none →
        resolveGeocode env cache pn slat slon sarea =
          { lat := none, lon := none, area_code := none, geocode_failed := true,
            cache := cache }) ∧
      (∀ la lo, (resolveGeocode env cache pn slat slon sarea).geocode_failed =
          false →
        (resolveGeocode env cache pn slat slon sarea).lat = some la →
        (resolveGeocode env cache pn slat slon sarea).lon = some lo →
        aget (resolveGeocode env cache pn slat slon sarea).cache pn =
          some ⟨la, lo,
            ((resolveGeocode env cache pn slat slon sarea).area_code).getD ""⟩)) ∧
    (∀ (env : BuildEnv) (st : BuildState) (row : RawRow),
      rowKey row ∉ st.seen →
      normalize_postcode row.postcode ≠ "" →
      postcodeMatches (normalize_postcode row.postcode) = true →
      (resolveGeocode env st.cache (normalize_postcode row.postcode)
        (pyStrip row.lat) (pyStrip row.lon)
        (pyStrip row.area_code)).geocode_failed = true →
      (rowStep env st row).counts.geocode_failed =
        st.counts.geocode_failed + 1 ∧
      (rowStep env st row).warnings.length = st.warnings.length + 1) := by
  constructor
  · intro env cache pn slat slon sarea
    refine ⟨?_, ?_, ?_, ?_, ?_, ?_⟩
    · intro la lo h1 h2 hla hlo
      exact resolveGeocode_step1_some h1 h2 hla hlo
    · intro hmiss r hr
      rw [resolveGeocode_step1_none hmiss]
      unfold geoChain
      rw [hr]
      exact ⟨rfl, rfl, rfl⟩
    · intro hmiss hc r hr
      rw [resolveGeocode_step1_none hmiss]
      unfold geoChain
      rw [hc, hr]
      exact ⟨rfl, rfl, rfl⟩
    · intro hmiss hc hl r hr
      rw [resolveGeocode_step1_none hmiss]
      unfold geoChain
      rw [hc, hl, hr]
      exact ⟨rfl, rfl, rfl⟩
    · intro hmiss hc hl hlive
      rw [resolveGeocode_step1_none hmiss]
      unfold geoChain
      rw [hc, hl, hlive]
    · intro la lo hok hla hlo
      by_cases hmiss : step1Miss env slat slon
      · rw [resolveGeocode_step1_none hmiss] at hla hlo ⊢
        revert hla hlo
        cases hchain : geoChain env cache pn with
        | some g =>
          intro hla hlo
          simp only [] at hla hlo ⊢
          cases hla
          cases hlo
          rw [aget_aupd_self]
        | none =>
          intro hla hlo
          rw [resolveGeocode_step1_none hmiss, hchain] at hok
          exact absurd hok (by simp)
      · unfold step1Miss at hmiss
        push_neg at hmiss
        obtain ⟨hs1, hs2, hp1, hp2⟩ := hmiss
        obtain ⟨la0, hla0⟩ := Option.ne_none_iff_exists'.1 hp1
        obtain ⟨lo0, hlo0⟩ := Option.ne_none_iff_exists'.1 hp2
        rw [resolveGeocode_step1_some hs1 hs2 hla0 hlo0] at hla hlo ⊢
        simp only [] at hla hlo ⊢
        cases hla
        cases hlo
        rw [aget_aupd_self]
  · intro env st row hseen hpc hmatch hfail
    unfold rowStep
    rw [if_neg hseen, if_neg (by exact hpc)]
    have hm : (!postcodeMatches (normalize_postcode row.postcode)) = false := by
      rw [hmatch]
      rfl
    rw [if_neg (by rw [hm]; exact Bool.false_ne_true)]
    simp only [hfail, if_true]
    cases aget env.availability (pyStrip row.practice_id) <;>
      simp [List.length_append]

/-- Witness for C5: every source misses, so resolution fails, the cache
is untouched, and the row gets exactly one geocode warning. -/
theorem claim_geocode_resolution_witness :
    (resolveGeocode (⟨[], [], fun _ => none, fun _ => none⟩ : BuildEnv) []
        "AB12CD" "" "" "" =
      { lat := none, lon := none, area_code := none, geocode_failed := true,
        cache := [] }) ∧
    ((rowStep (⟨[], [], fun _ => none, fun _ => none⟩ : BuildEnv)
        ⟨[], [], [], WarnCounts.zero, []⟩
        ⟨"p1", "N", "A", "AB1 2CD", "", "", ""⟩).counts.geocode_failed = 1 ∧
      (rowStep (⟨[], [], fun _ => none, fun _ => none⟩ : BuildEnv)
        ⟨[], [], [], WarnCounts.zero, []⟩
        ⟨"p1", "N", "A", "AB1 2CD", "", "", ""⟩).warnings.length = 1) :=
  ⟨(claim_geocode_resolution.1 ⟨[], [], fun _ => none, fun _ => none⟩ []
      "AB12CD" "" "" "").2.2.2.2.1 (Or.inl rfl) rfl rfl rfl,
    claim_geocode_resolution.2 ⟨[], [], fun _ => none, fun _ => none⟩
      ⟨[], [], [], WarnCounts.zero, []⟩ ⟨"p1", "N", "A", "AB1 2CD", "", "", ""⟩
      (by simp) (by decide) (by decide) (by decide)⟩

theorem canonical_ne_empty {v : Option String} {c : String}
    (h : canonical_lsoa_area_code v = some c) : c ≠ "" := by
  unfold canonical_lsoa_area_code at h
  cases v with
  | none => exact Option.noConfusion h
  | some s =>
    simp only [] at h
    by_cases h1 : s = ""
    · rw [if_pos h1] at h
      exact Option.noConfusion h
    · rw [if_neg h1] at h
      by_cases h2 : pyStrip s = ""
      · rw [if_pos h2] at h
        exact Option.noConfusion h
      · rw [if_neg h2] at h
        split at h
        · split at h
          · rw [Option.some.injEq] at h
            subst h
            intro hEq
            have := congrArg String.data hEq
            rw [String.data_append] at this
            simp at this
          · exact Option.noConfusion h
        · split at h
          · rw [Option.some.injEq] at h
            subst h
            intro hEq
            have := congrArg String.data hEq
            rw [String.data_append] at this
            simp at this
          · exact Option.noConfusion h

theorem orOptStr_some_of_ne {c : String} (h : c ≠ "") (b : Option String) :
    orOptStr (some c) b = some c := by
  simp [orOptStr, h]

/-- C6: for a row that reaches the cache/lookup/live chain and resolves,
when both the source-supplied area hint and the resolver's fine-area code
canonicalize, the practice appended by the row step carries the key
canonicalized from the source hint, not the resolver's. -/
theorem claim_area_hint_preference :
    ∀ (env : BuildEnv) (st : BuildState) (row : RawRow) (c c' : String)
      (g : GeoRec),
      rowKey row ∉ st.seen →
      normalize_postcode row.postcode ≠ "" →
      postcodeMatches (normalize_postcode row.postcode) = true →
      step1Miss env (pyStrip row.lat) (pyStrip row.lon) →
      geoChain env st.cache (normalize_postcode row.postcode) = some g →
      canonical_lsoa_area_code (some (pyStrip row.area_code)) = some c →
      canonical_lsoa_area_code (some (pyStrip g.area_code)) = some c' →
      ∃ p : Practice, (rowStep env st row).results = st.results ++ [p] ∧
        p.area_code = some c := by
  intro env st row c c' g hseen hpc hmatch hmiss hchain hc hc'
  unfold rowStep
  rw [if_neg hseen, if_neg hpc]
  have hm : (!postcodeMatches (normalize_postcode row.postcode)) = false := by
    rw [hmatch]
    rfl
  rw [if_neg (by rw [hm]; exact Bool.false_ne_true)]
  rw [resolveGeocode_step1_none hmiss, hchain]
  simp only []
  refine ⟨_, rfl, ?_⟩
  show (orOptStr (canonical_lsoa_area_code (some (pyStrip row.area_code)))
    (orOptStr (canonical_lsoa_area_code (some (pyStrip g.area_code)))
      (strOpt (pyStrip row.area_code)))) = some c
  rw [hc]
  exact orOptStr_some_of_ne (canonical_ne_empty hc) _

/-- Witness for C6: the hint `LSOA::E01000001` wins over the cached
resolver code `E01000009`. -/
theorem claim_area_hint_preference_witness :
    ∃ p : Practice,
      (rowStep (⟨[], [], fun _ => none, fun _ => none⟩ : BuildEnv)
        ⟨[], [("AB12CD", ⟨1, 2, "E01000009"⟩)], [], WarnCounts.zero, []⟩
        ⟨"p1", "N", "A", "AB1 2CD", "", "", "LSOA::E01000001"⟩).results =
        [] ++ [p] ∧
      p.area_code = some "LSOA::E01000001" :=
  claim_area_hint_preference ⟨[], [], fun _ => none, fun _ => none⟩
    ⟨[], [("AB12CD", ⟨1, 2, "E01000009"⟩)], [], WarnCounts.zero, []⟩
    ⟨"p1", "N", "A", "AB1 2CD", "", "", "LSOA::E01000001"⟩
    "LSOA::E01000001" "LSOA::E01000009" ⟨1, 2, "E01000009"⟩
    (by simp) (by decide) (by decide) (Or.inl rfl) rfl (by decide) (by decide)

/-! ### Geocode-failed practices carry no fields (claim C10) -/

theorem strOpt_some_ne {x t : String} (h : strOpt x = some t) : t ≠ "" := by
  unfold strOpt at h
  by_cases hx : x = ""
  · rw [if_pos hx] at h
    exact Option.noConfusion h
  · rw [if_neg hx] at h
    rw [Option.some.injEq] at h
    exact h ▸ hx

theorem orOptStr_some_ne_empty {a b : Option String} {s : String}
    (ha : ∀ t, a = some t → t ≠ "") (hb : ∀ t, b = some t → t ≠ "")
    (h : orOptStr a b = some s) : s ≠ "" := by
  unfold orOptStr at h
  cases a with
  | none => exact hb s h
  | some t =>
    simp only [] at h
    by_cases ht : t = ""
    · rw [if_pos ht] at h
      exact hb s h
    · rw [if_neg ht] at h
      rw [Option.some.injEq] at h
      exact h ▸ ht

/-- The per-practice invariant maintained by the row loop. -/
def PracticeInv (p : Practice) : Prop :=
  (p.geocode_failed = true →
    p.lat = none ∧ p.lon = none ∧ p.area_code = none) ∧
  (∀ t, p.area_code = some t → t ≠ "")

theorem resolveGeocode_inv (env : BuildEnv) (cache : List (String × GeoRec))
    (pn slat slon sarea : String) :
    ((resolveGeocode env cache pn slat slon sarea).geocode_failed = true →
      (resolveGeocode env cache pn slat slon sarea).lat = none ∧
      (resolveGeocode env cache pn slat slon sarea).lon = none ∧
      (resolveGeocode env cache pn slat slon sarea).area_code = none) ∧
    (∀ t, (resolveGeocode env cache pn slat slon sarea).area_code = some t →
      t ≠ "") := by
  by_cases hmiss : step1Miss env slat slon
  · rw [resolveGeocode_step1_none hmiss]
    cases hchain : geoChain env cache pn with
    | some g =>
      simp only []
      constructor
      · intro h
        exact absurd h (by simp)
      · intro t ht
        refine orOptStr_some_ne_empty (fun u hu => canonical_ne_empty hu)
          (fun u hu => ?_) ht
        exact orOptStr_some_ne_empty (fun w hw => canonical_ne_empty hw)
          (fun w hw => strOpt_some_ne hw) hu
    | none =>
      exact ⟨fun _ => ⟨rfl, rfl, rfl⟩, fun t ht => Option.noConfusion ht⟩
  · unfold step1Miss at hmiss
    push_neg at hmiss
    obtain ⟨hs1, hs2, hp1, hp2⟩ := hmiss
    obtain ⟨la0, hla0⟩ := Option.ne_none_iff_exists'.1 hp1
    obtain ⟨lo0, hlo0⟩ := Option.ne_none_iff_exists'.1 hp2
    rw [resolveGeocode_step1_some hs1 hs2 hla0 hlo0]
    constructor
    · intro h
      exact absurd h (by simp)
    · intro t ht
      exact orOptStr_some_ne_empty (fun u hu => canonical_ne_empty hu)
        (fun u hu => strOpt_some_ne hu) ht

theorem rowStep_results_inv (env : BuildEnv) (st : BuildState) (row : RawRow)
    (hst : ∀ p ∈ st.results, PracticeInv p) :
    ∀ p ∈ (rowStep env st row).results, PracticeInv p := by
  intro p hp
  unfold rowStep at hp
  simp only [] at hp
  split at hp
  · exact hst p hp
  · split at hp
    · exact hst p hp
    · split at hp
      · exact hst p hp
      · simp only [] at hp
        rw [List.mem_append] at hp
        rcases hp with hp | hp
        · exact hst p hp
        · rw [List.mem_singleton] at hp
          subst hp
          exact resolveGeocode_inv env st.cache
            (normalize_postcode row.postcode) (pyStrip row.lat)
            (pyStrip row.lon) (pyStrip row.area_code)

theorem buildPractices_inv (env : BuildEnv) :
    ∀ (rows : List RawRow) (st : BuildState),
      (∀ p ∈ st.results, PracticeInv p) →
      ∀ p ∈ (rows.foldl (rowStep env) st).results, PracticeInv p := by
  intro rows
  induction rows with
  | nil => intro st h; simpa using h
  | cons r rest ih =>
    intro st h
    simp only [List.foldl_cons]
    exact ih _ (rowStep_results_inv env st r h)

/-- C10: a practice returned by `build_practices` with `geocode_failed`
set carries no coordinates and no fine-area key; consequently every key
in the QA report's missing-geocode breakdown is the `"unassigned"`
sentinel. -/
theorem claim_geocode_failed_null_fields :
    ∀ (env : BuildEnv) (cache0 : List (String × GeoRec)) (rows : List RawRow),
      (∀ p ∈ (buildPractices env cache0 rows).results,
        p.geocode_failed = true →
        p.lat = none ∧ p.lon = none ∧ p.area_code = none) ∧
      (∀ s ∈ qaMissingAreaKeys (buildPractices env cache0 rows).results,
        s = "unassigned") := by
  intro env cache0 rows
  have hinv : ∀ p ∈ (buildPractices env cache0 rows).results, PracticeInv p :=
    buildPractices_inv env rows _ (by intro p hp; simp at hp)
  refine ⟨fun p hp => (hinv p hp).1, ?_⟩
  intro s hs
  unfold qaMissingAreaKeys at hs
  rw [List.mem_filterMap] at hs
  obtain ⟨p, hp, hEq⟩ := hs
  split at hEq
  · rename_i hcond
    cases hac : p.area_code with
    | none =>
      rw [hac] at hEq
      simp only [Option.some.injEq] at hEq
      exact hEq.symm
    | some t =>
      rw [hac] at hcond
      simp at hcond
      have := ((hinv p hp).1 hcond).2.2
      rw [hac] at this
      exact Option.noConfusion this
  · exact Option.noConfusion hEq

/-- Witness for C10: a row whose geocode fails everywhere yields a
practice with all three fields `none`. -/
theorem claim_geocode_failed_null_fields_witness :
    (⟨"p1", "N", "A", "AB1 2CD", "AB12CD", none, none, none, true,
      "unknown", "unknown"⟩ : Practice).lat = none ∧
    (⟨"p1", "N", "A", "AB1 2CD", "AB12CD", none, none, none, true,
      "unknown", "unknown"⟩ : Practice).lon = none ∧
    (⟨"p1", "N", "A", "AB1 2CD", "AB12CD", none, none, none, true,
      "unknown", "unknown"⟩ : Practice).area_code = none :=
  (claim_geocode_failed_null_fields ⟨[], [], fun _ => none, fun _ => none⟩ []
    [⟨"p1", "N", "A", "AB1 2CD", "", "", ""⟩]).1
    ⟨"p1", "N", "A", "AB1 2CD", "AB12CD", none, none, none, true,
      "unknown", "unknown"⟩ (by decide) rfl

/-! ### Acceptance condition and deduplication (claims C3, C4) -/

/-- The geocode-independent fields of an emitted practice. -/
structure PracticeView where
  practice_id : String
  practice_name : String
  address : String
  postcode : String
  postcode_norm : String
  accepting_adults : String
  accepting_children : String
deriving DecidableEq, Repr

def projP (p : Practice) : PracticeView :=
  ⟨p.practice_id, p.practice_name, p.address, p.postcode, p.postcode_norm,
    p.accepting_adults, p.accepting_children⟩

/-- What the claim says an accepted row must become: stripped fields,
uppercased raw postcode, normalized postcode, and availability flags
defaulting to `"unknown"` when the id has no availability row. -/
def projRow (env : BuildEnv) (r : RawRow) : PracticeView :=
  let flags :=
    match aget env.availability (pyStrip r.practice_id) with
    | some a => (pyLower (pyStrip a.accepting_adults),
        pyLower (pyStrip a.accepting_children))
    | none => ("unknown", "unknown")
  ⟨pyStrip r.practice_id, pyStrip r.practice_name, pyStrip r.address,
    pyUpper (pyStrip r.postcode), normalize_postcode r.postcode,
    flags.1, flags.2⟩

/-- The claim-side acceptance filter: a row survives iff its dedup key
has not occurred before (in any earlier row, accepted or not) and its
normalized postal code is non-empty and format-valid. -/
def claimAcceptedAux (seen : List (String × String)) : List RawRow → List RawRow
  | [] => []
  | r :: rest =>
    if rowKey r ∈ seen then claimAcceptedAux seen rest
    else if normalize_postcode r.postcode = "" ∨
        postcodeMatches (normalize_postcode r.postcode) = false then
      claimAcceptedAux (rowKey r :: seen) rest
    else r :: claimAcceptedAux (rowKey r :: seen) rest

/-- The dedup key recoverable from an emitted practice. -/
def pkey (p : Practice) : String × String :=
  (pyLower p.practice_name, p.postcode_norm)

def keyOfView (v : PracticeView) : String × String :=
  (pyLower v.practice_name, v.postcode_norm)

theorem keyOfView_projP (p : Practice) : keyOfView (projP p) = pkey p := rfl

theorem keyOfView_projRow (env : BuildEnv) (r : RawRow) :
    keyOfView (projRow env r) = rowKey r := rfl

theorem rowStep_dup {env : BuildEnv} {st : BuildState} {row : RawRow}
    (h : rowKey row ∈ st.seen) :
    rowStep env st row =
      { st with counts :=
          { st.counts with deduplicated_practices :=
              st.counts.deduplicated_practices + 1 } } := by
  unfold rowStep
  rw [if_pos h]

theorem rowStep_missing {env : BuildEnv} {st : BuildState} {row : RawRow}
    (h1 : rowKey row ∉ st.seen)
    (h2 : normalize_postcode row.postcode = "") :
    rowStep env st row =
      { st with
        seen := rowKey row :: st.seen
        counts := { st.counts with missing_postcode := st.counts.missing_postcode + 1 }
        warnings := st.warnings ++
          [pyStrip row.practice_id ++ ": missing postcode"] } := by
  unfold rowStep
  rw [if_neg h1, if_pos h2]

theorem rowStep_invalid {env : BuildEnv} {st : BuildState} {row : RawRow}
    (h1 : rowKey row ∉ st.seen)
    (h2 : normalize_postcode row.postcode ≠ "")
    (h3 : postcodeMatches (normalize_postcode row.postcode) = false) :
    rowStep env st row =
      { st with
        seen := rowKey row :: st.seen
        counts := { st.counts with invalid_postcode := st.counts.invalid_postcode + 1 }
        warnings := st.warnings ++
          [pyStrip row.practice_id ++ ": invalid postcode \x27" ++
            row.postcode ++ "\x27"] } := by
  unfold rowStep
  rw [if_neg h1, if_neg h2, if_pos (by rw [h3]; rfl)]

theorem rowStep_accepted {env : BuildEnv} {st : BuildState} {row : RawRow}
    (h1 : rowKey row ∉ st.seen)
    (h2 : normalize_postcode row.postcode ≠ "")
    (h3 : postcodeMatches (normalize_postcode row.postcode) = true) :
    rowStep env st row =
      (let g := resolveGeocode env st.cache (normalize_postcode row.postcode)
        (pyStrip row.lat) (pyStrip row.lon) (pyStrip row.area_code)
      let counts1 :=
        match aget env.availability (pyStrip row.practice_id) with
        | some _ => st.counts
        | none =>
          { st.counts with missing_availability := st.counts.missing_availability + 1 }
      { seen := rowKey row :: st.seen
        cache := g.cache
        results := st.results ++
          [mkPractice row (pyStrip row.practice_id)
            (normalize_postcode row.postcode)
            ((aget env.availability (pyStrip row.practice_id)).getD
              ⟨"unknown", "unknown"⟩) g]
        counts :=
          if g.geocode_failed then
            { counts1 with geocode_failed := counts1.geocode_failed + 1 }
          else counts1
        warnings :=
          if g.geocode_failed then
            st.warnings ++ [pyStrip row.practice_id ++
              ": geocode lookup failed for " ++ normalize_postcode row.postcode]
          else st.warnings }) := by
  unfold rowStep
  rw [if_neg h1, if_neg h2, if_neg (by rw [h3]; exact Bool.false_ne_true)]

theorem projP_mkPractice (env : BuildEnv) (row : RawRow) (g : GeoOutcome) :
    projP (mkPractice row (pyStrip row.practice_id)
      (normalize_postcode row.postcode)
      ((aget env.availability (pyStrip row.practice_id)).getD
        ⟨"unknown", "unknown"⟩) g) = projRow env row := by
  unfold projP mkPractice projRow
  cases aget env.availability (pyStrip row.practice_id) with
  | none =>
    simp only [Option.getD]
    rfl
  | some a =>
    simp only [Option.getD]

theorem buildFold_results_proj (env : BuildEnv) :
    ∀ (rows : List RawRow) (st : BuildState),
      ((rows.foldl (rowStep env) st).results).map projP =
        st.results.map projP ++ (claimAcceptedAux st.seen rows).map (projRow env) := by
  intro rows
  induction rows with
  | nil =>
    intro st
    simp [claimAcceptedAux]
  | cons r rest ih =>
    intro st
    simp only [List.foldl_cons]
    rw [ih (rowStep env st r)]
    by_cases hdup : rowKey r ∈ st.seen
    · rw [rowStep_dup hdup]
      simp only []
      rw [show claimAcceptedAux st.seen (r :: rest) =
        claimAcceptedAux st.seen rest by rw [claimAcceptedAux, if_pos hdup]]
    · by_cases hemp : normalize_postcode r.postcode = ""
      · rw [rowStep_missing hdup hemp]
        simp only []
        rw [show claimAcceptedAux st.seen (r :: rest) =
          claimAcceptedAux (rowKey r :: st.seen) rest by
            rw [claimAcceptedAux, if_neg hdup, if_pos (Or.inl hemp)]]
      · by_cases hmatch : postcodeMatches (normalize_postcode r.postcode) = true
        · rw [rowStep_accepted hdup hemp hmatch]
          simp only []
          rw [show claimAcceptedAux st.seen (r :: rest) =
            r :: claimAcceptedAux (rowKey r :: st.seen) rest by
              rw [claimAcceptedAux, if_neg hdup, if_neg (by
                intro hor
                rcases hor with h | h
                · exact hemp h
                · rw [hmatch] at h
                  exact Bool.noConfusion h)]]
          rw [List.map_append, List.map_cons]
          rw [projP_mkPractice]
          simp
        · have hm : postcodeMatches (normalize_postcode r.postcode) = false :=
            Bool.eq_false_iff.mpr hmatch
          rw [rowStep_invalid hdup hemp hm]
          simp only []
          rw [show claimAcceptedAux st.seen (r :: rest) =
            claimAcceptedAux (rowKey r :: st.seen) rest by
              rw [claimAcceptedAux, if_neg hdup, if_pos (Or.inr hm)]]

/-- C4: a row of `build_practices` yields a practice exactly when it is
not a duplicate under the dedup key, its normalized postal code is
non-empty, and the normalized postal code matches the postcode format —
geocode failure and missing availability never reject a row.  The
surviving practices, projected to their geocode-independent fields, are
exactly (in order and multiplicity) the claim-side accepted rows, with
missing availability defaulting both flags to `"unknown"`. -/
theorem claim_acceptance_condition :
    ∀ (env : BuildEnv) (cache0 : List (String × GeoRec)) (rows : List RawRow),
      ((buildPractices env cache0 rows).results).map projP =
        (claimAcceptedAux [] rows).map (projRow env) := by
  intro env cache0 rows
  unfold buildPractices
  rw [buildFold_results_proj]
  simp

/-- Number of rows dropped as duplicates: rows whose dedup key already
occurred in an earlier row (accepted or not). -/
def dupCount (seen : List (String × String)) : List RawRow → Nat
  | [] => 0
  | r :: rest =>
    if rowKey r ∈ seen then dupCount seen rest + 1
    else dupCount (rowKey r :: seen) rest

theorem buildFold_dedup_count (env : BuildEnv) :
    ∀ (rows : List RawRow) (st : BuildState),
      (rows.foldl (rowStep env) st).counts.deduplicated_practices =
        st.counts.deduplicated_practices + dupCount st.seen rows := by
  intro rows
  induction rows with
  | nil =>
    intro st
    simp [dupCount]
  | cons r rest ih =>
    intro st
    simp only [List.foldl_cons]
    rw [ih (rowStep env st r)]
    by_cases hdup : rowKey r ∈ st.seen
    · rw [rowStep_dup hdup, dupCount, if_pos hdup]
      simp only []
      omega
    · rw [dupCount, if_neg hdup]
      by_cases hemp : normalize_postcode r.postcode = ""
      · rw [rowStep_missing hdup hemp]
      · by_cases hmatch : postcodeMatches (normalize_postcode r.postcode) = true
        · rw [rowStep_accepted hdup hemp hmatch]
          simp only []
          have hc : (if (resolveGeocode env st.cache
              (normalize_postcode r.postcode) (pyStrip r.lat) (pyStrip r.lon)
              (pyStrip r.area_code)).geocode_failed = true then
              { (match aget env.availability (pyStrip r.practice_id) with
                | some _ => st.counts
                | none => { st.counts with missing_availability :=
                    st.counts.missing_availability + 1 }) with
                geocode_failed :=
                  (match aget env.availability (pyStrip r.practice_id) with
                  | some _ => st.counts
                  | none => { st.counts with missing_availability :=
                      st.counts.missing_availability + 1 }).geocode_failed + 1 }
            else
              (match aget env.availability (pyStrip r.practice_id) with
              | some _ => st.counts
              | none => { st.counts with missing_availability :=
                  st.counts.missing_availability + 1 })).deduplicated_practices =
              st.counts.deduplicated_practices := by
            cases aget env.availability (pyStrip r.practice_id) <;>
              by_cases hf : (resolveGeocode env st.cache
                (normalize_postcode r.postcode) (pyStrip r.lat) (pyStrip r.lon)
                (pyStrip r.area_code)).geocode_failed = true <;>
              simp [hf]
          rw [hc]
        · have hm : postcodeMatches (normalize_postcode r.postcode) = false :=
            Bool.eq_false_iff.mpr hmatch
          rw [rowStep_invalid hdup hemp hm]

theorem claimAcceptedAux_first :
    ∀ (rows : List RawRow) (seen : List (String × String)) (r : RawRow),
      r ∈ claimAcceptedAux seen rows →
      rowKey r ∉ seen ∧
        rows.find? (fun x => rowKey x == rowKey r) = some r := by
  intro rows
  induction rows with
  | nil =>
    intro seen r hr
    simp [claimAcceptedAux] at hr
  | cons r0 rest ih =>
    intro seen r hr
    rw [claimAcceptedAux] at hr
    by_cases hdup : rowKey r0 ∈ seen
    · rw [if_pos hdup] at hr
      obtain ⟨hnot, hfind⟩ := ih seen r hr
      have hne : (rowKey r0 == rowKey r) = false := by
        rw [beq_eq_false_iff_ne]
        intro hEq
        exact hnot (hEq ▸ hdup)
      refine ⟨hnot, ?_⟩
      rw [List.find?_cons, hne]
      exact hfind
    · rw [if_neg hdup] at hr
      by_cases hrej : normalize_postcode r0.postcode = "" ∨
          postcodeMatches (normalize_postcode r0.postcode) = false
      · rw [if_pos hrej] at hr
        obtain ⟨hnot, hfind⟩ := ih _ r hr
        have hnotseen : rowKey r ∉ seen :=
          fun hmem => hnot (List.mem_cons_of_mem _ hmem)
        have hne : (rowKey r0 == rowKey r) = false := by
          rw [beq_eq_false_iff_ne]
          intro hEq
          exact hnot (hEq ▸ List.mem_cons_self _ _)
        refine ⟨hnotseen, ?_⟩
        rw [List.find?_cons, hne]
        exact hfind
      · rw [if_neg hrej] at hr
        rcases List.mem_cons.1 hr with hEq | htail
        · subst hEq
          refine ⟨hdup, ?_⟩
          rw [List.find?_cons]
          simp
        · obtain ⟨hnot, hfind⟩ := ih _ r htail
          have hnotseen : rowKey r ∉ seen :=
            fun hmem => hnot (List.mem_cons_of_mem _ hmem)
          have hne : (rowKey r0 == rowKey r) = false := by
            rw [beq_eq_false_iff_ne]
            intro hEq
            exact hnot (hEq ▸ List.mem_cons_self _ _)
          refine ⟨hnotseen, ?_⟩
          rw [List.find?_cons, hne]
          exact hfind

theorem claimAcceptedAux_nodup :
    ∀ (rows : List RawRow) (seen : List (String × String)),
      ((claimAcceptedAux seen rows).map rowKey).Nodup := by
  intro rows
  induction rows with
  | nil =>
    intro seen
    simp [claimAcceptedAux]
  | cons r0 rest ih =>
    intro seen
    rw [claimAcceptedAux]
    by_cases hdup : rowKey r0 ∈ seen
    · rw [if_pos hdup]
      exact ih seen
    · rw [if_neg hdup]
      by_cases hrej : normalize_postcode r0.postcode = "" ∨
          postcodeMatches (normalize_postcode r0.postcode) = false
      · rw [if_pos hrej]
        exact ih _
      · rw [if_neg hrej]
        rw [List.map_cons, List.nodup_cons]
        refine ⟨?_, ih _⟩
        intro hmem
        rw [List.mem_map] at hmem
        obtain ⟨r, hrmem, hkey⟩ := hmem
        have := (claimAcceptedAux_first rest _ r hrmem).1
        exact this (hkey ▸ List.mem_cons_self _ _)

theorem claimAcceptedAux_covers (k : String × String) :
    ∀ (rows : List RawRow) (seen : List (String × String)),
      k ∉ seen → (∃ r0 ∈ rows, rowKey r0 = k) →
      k.2 ≠ "" → postcodeMatches k.2 = true →
      ∃ r ∈ claimAcceptedAux seen rows, rowKey r = k := by
  intro rows
  induction rows with
  | nil =>
    intro seen _ hex
    obtain ⟨r0, hr0, -⟩ := hex
    simp at hr0
  | cons r0 rest ih =>
    intro seen hseen hex hpc hmatch
    rw [claimAcceptedAux]
    by_cases hk : rowKey r0 = k
    · have hdup : rowKey r0 ∉ seen := fun h => hseen (hk ▸ h)
      rw [if_neg hdup]
      have hnorm : normalize_postcode r0.postcode = k.2 := by
        rw [show k.2 = (rowKey r0).2 by rw [hk]]
        rfl
      rw [if_neg (by
        intro hor
        rcases hor with h | h
        · exact hpc (hnorm ▸ h)
        · rw [hnorm, hmatch] at h
          exact Bool.noConfusion h)]
      exact ⟨r0, List.mem_cons_self _ _, hk⟩
    · have hex' : ∃ r1 ∈ rest, rowKey r1 = k := by
        obtain ⟨r1, hr1, hkey⟩ := hex
        rcases List.mem_cons.1 hr1 with hEq | htail
        · exact absurd (hEq ▸ hkey) hk
        · exact ⟨r1, htail, hkey⟩
      by_cases hdup : rowKey r0 ∈ seen
      · rw [if_pos hdup]
        exact ih seen hseen hex' hpc hmatch
      · have hseen' : k ∉ rowKey r0 :: seen := by
          intro h
          rcases List.mem_cons.1 h with hEq | htail
          · exact hk hEq.symm
          · exact hseen htail
        rw [if_neg hdup]
        by_cases hrej : normalize_postcode r0.postcode = "" ∨
            postcodeMatches (normalize_postcode r0.postcode) = false
        · rw [if_pos hrej]
          exact ih _ hseen' hex' hpc hmatch
        · rw [if_neg hrej]
          obtain ⟨r, hr, hkey⟩ := ih _ hseen' hex' hpc hmatch
          exact ⟨r, List.mem_cons_of_mem _ hr, hkey⟩

theorem results_countP_key (env : BuildEnv) (cache0 : List (String × GeoRec))
    (rows : List RawRow) (k : String × String) :
    ((buildPractices env cache0 rows).results).countP (fun p => pkey p == k) =
      (claimAcceptedAux [] rows).countP (fun r => rowKey r == k) := by
  have hmap : ((buildPractices env cache0 rows).results).map projP =
      (claimAcceptedAux [] rows).map (projRow env) := by
    unfold buildPractices
    rw [buildFold_results_proj]
    simp
  have h1 : ((buildPractices env cache0 rows).results).countP
      (fun p => pkey p == k) =
      (((buildPractices env cache0 rows).results).map projP).countP
        (fun v => keyOfView v == k) := by
    rw [List.countP_map]
    rfl
  have h2 : (((claimAcceptedAux [] rows)).map (projRow env)).countP
      (fun v => keyOfView v == k) =
      (claimAcceptedAux [] rows).countP (fun r => rowKey r == k) := by
    rw [List.countP_map]
    rfl
  rw [h1, hmap, h2]

theorem countP_rowKey_le_one :
    ∀ (l : List RawRow), ((l.map rowKey).Nodup) →
      ∀ k, l.countP (fun r => rowKey r == k) ≤ 1 := by
  intro l
  induction l with
  | nil =>
    intro _ k
    simp
  | cons r0 rest ih =>
    intro hnd k
    rw [List.map_cons, List.nodup_cons] at hnd
    rw [List.countP_cons]
    by_cases hk : (rowKey r0 == k) = true
    · have hzero : rest.countP (fun r => rowKey r == k) = 0 := by
        rw [List.countP_eq_zero]
        intro r hr hp
        apply hnd.1
        rw [List.mem_map]
        have hkr : rowKey r = k := by simpa using hp
        have hk0 : rowKey r0 = k := by simpa using hk
        exact ⟨r, hr, by rw [hkr, hk0]⟩
      rw [hzero]
      simp [hk]
    · have hk' : (rowKey r0 == k) = false := by
        simpa using hk
      rw [hk']
      simpa using ih hnd.2 k

/-- C3, counterexample to the claim as stated: two rows with the same
dedup key whose shared postal code is missing — the first is rejected for
the missing postcode (after its key was already recorded), the second is
dropped as a duplicate, so zero practices survive, not exactly one. -/
theorem claim_dedup_counterexample :
    rowKey ⟨"p1", "Alpha", "", "", "", "", ""⟩ =
      rowKey ⟨"p2", "Alpha", "", "", "", "", ""⟩ ∧
    (buildPractices (⟨[], [], fun _ => none, fun _ => none⟩ : BuildEnv) []
      [⟨"p1", "Alpha", "", "", "", "", ""⟩,
       ⟨"p2", "Alpha", "", "", "", "", ""⟩]).results = [] ∧
    (buildPractices (⟨[], [], fun _ => none, fun _ => none⟩ : BuildEnv) []
      [⟨"p1", "Alpha", "", "", "", "", ""⟩,
       ⟨"p2", "Alpha", "", "", "", "", ""⟩]).counts.deduplicated_practices =
      1 := by
  refine ⟨by decide, by decide, by decide⟩

/-- C3 (amended): per dedup key at most one practice survives; a
surviving practice always comes from the first row carrying its key;
second and later occurrences of a key are dropped and counted under the
deduplicated category; and exactly one practice survives for a key whose
normalized postal code is non-empty and format-valid (with an invalid
shared postcode, zero survive). -/
theorem claim_dedup_first_wins :
    ∀ (env : BuildEnv) (cache0 : List (String × GeoRec)) (rows : List RawRow),
      (∀ k : String × String,
        (((buildPractices env cache0 rows).results).filter
          (fun p => pkey p == k)).length ≤ 1) ∧
      (∀ p ∈ (buildPractices env cache0 rows).results,
        ∃ r, rows.find? (fun x => rowKey x == pkey p) = some r ∧
          projP p = projRow env r) ∧
      ((buildPractices env cache0 rows).counts.deduplicated_practices =
        dupCount [] rows) ∧
      (∀ r0 ∈ rows, normalize_postcode r0.postcode ≠ "" →
        postcodeMatches (normalize_postcode r0.postcode) = true →
        (((buildPractices env cache0 rows).results).filter
          (fun p => pkey p == rowKey r0)).length = 1) := by
  intro env cache0 rows
  have hmap : ((buildPractices env cache0 rows).results).map projP =
      (claimAcceptedAux [] rows).map (projRow env) := by
    unfold buildPractices
    rw [buildFold_results_proj]
    simp
  refine ⟨?_, ?_, ?_, ?_⟩
  · intro k
    rw [← List.countP_eq_length_filter, results_countP_key]
    exact countP_rowKey_le_one _ (claimAcceptedAux_nodup rows []) k
  · intro p hp
    have hmem : projP p ∈ ((buildPractices env cache0 rows).results).map projP :=
      List.mem_map_of_mem projP hp
    rw [hmap, List.mem_map] at hmem
    obtain ⟨r, hr, hEq⟩ := hmem
    have hkey : pkey p = rowKey r := by
      rw [← keyOfView_projP p, ← hEq, keyOfView_projRow]
    obtain ⟨-, hfind⟩ := claimAcceptedAux_first rows [] r hr
    refine ⟨r, ?_, hEq.symm⟩
    rw [hkey]
    exact hfind
  · unfold buildPractices
    rw [buildFold_dedup_count]
    simp [WarnCounts.zero]
  · intro r0 hr0 hpc hmatch
    rw [← List.countP_eq_length_filter, results_countP_key]
    have hle := countP_rowKey_le_one _ (claimAcceptedAux_nodup rows [])
      (rowKey r0)
    have hge : 0 < (claimAcceptedAux [] rows).countP
        (fun r => rowKey r == rowKey r0) := by
      rw [List.countP_pos_iff]
      obtain ⟨r, hr, hkey⟩ := claimAcceptedAux_covers (rowKey r0) rows []
        (by simp) ⟨r0, hr0, rfl⟩ hpc hmatch
      exact ⟨r, hr, by simp [hkey]⟩
    omega

/-- Witness for the amended C3: two same-key rows with a valid shared
postcode leave exactly one surviving practice, keyed by the first row. -/
theorem claim_dedup_first_wins_witness :
    (((buildPractices (⟨[], [], fun _ => none, fun _ => none⟩ : BuildEnv) []
      [⟨"p1", "Alpha", "a", "AB1 2CD", "", "", ""⟩,
       ⟨"p2", "ALPHA", "b", "ab1 2cd", "", "", ""⟩]).results).filter
      (fun p => pkey p == rowKey ⟨"p1", "Alpha", "a", "AB1 2CD", "", "", ""⟩)).length =
      1 :=
  (claim_dedup_first_wins (⟨[], [], fun _ => none, fun _ => none⟩ : BuildEnv) []
    [⟨"p1", "Alpha", "a", "AB1 2CD", "", "", ""⟩,
     ⟨"p2", "ALPHA", "b", "ab1 2cd", "", "", ""⟩]).2.2.2
    ⟨"p1", "Alpha", "a", "AB1 2CD", "", "", ""⟩ (by decide) (by decide)
    (by decide)

end DentalDeserts
